import Mathlib

/-!
Shallow embedding of `geogebra_graph.py` (GeoGebra figure ↔ SageMath graph
conversion) and proofs about the claims of its specification.

The embedding follows the Python source:
* `geogebra_to_graph`   (lines 9–92)   — importer,
* `geogebra_graph_plot` (lines 95–133) — palette mapper / plot helper,
* `graph_to_geogebra`   (lines 136–213) — exporter.

Python dynamic values are modelled by `PyVal`, Python exceptions by
`PyErr` together with `Except`.  The XML document is modelled structurally
(the external XML parser/serializer is an external collaborator of the
program; attribute text ↔ number conversion is bundled into the typed
fields).  Floating point numbers are modelled by `ℚ`; Python guarantees
that `float(str(x)) == x`, so serialization of positions is the identity
in the model.
-/

namespace GeogebraGraph

/-- Python exceptions that the modelled code can raise. -/
inductive PyErr where
  | keyError
  | valueError
  | typeError
  | indexError
  | parseError
  | fileNotFoundError
  | badZipFile
  deriving DecidableEq, Repr

/-- Python runtime values, as far as the modelled code inspects them. -/
inductive PyVal where
  | none
  | str (s : String)
  | int (n : Int)
  | rat (q : ℚ)
  | tuple (xs : List PyVal)
  | dict (entries : List (String × PyVal))

/-- Lookup in an insertion-ordered association list (Python `dict` access,
first matching key). -/
def assocGet {α β : Type} [DecidableEq α] (l : List (α × β)) (k : α) : Option β :=
  match l with
  | [] => Option.none
  | (k', v) :: rest => if k' = k then some v else assocGet rest k

/-- Update in an insertion-ordered association list (Python `dict.__setitem__`:
overwrite in place when the key is present, append otherwise). -/
def assocSet {α β : Type} [DecidableEq α] (l : List (α × β)) (k : α) (v : β) :
    List (α × β) :=
  match l with
  | [] => [(k, v)]
  | (k', v') :: rest =>
      if k' = k then (k', v) :: rest else (k', v') :: assocSet rest k v

/-- Decimal digit character (only ever applied to values `< 10`). -/
def digChar (d : Nat) : Char :=
  match d with
  | 0 => '0' | 1 => '1' | 2 => '2' | 3 => '3' | 4 => '4'
  | 5 => '5' | 6 => '6' | 7 => '7' | 8 => '8' | 9 => '9'
  | _ => '*'

/-- Numeric value of a decimal digit character. -/
def digVal (c : Char) : Nat :=
  match c with
  | '0' => 0 | '1' => 1 | '2' => 2 | '3' => 3 | '4' => 4
  | '5' => 5 | '6' => 6 | '7' => 7 | '8' => 8 | '9' => 9
  | _ => 10

/-- Fuel-driven decimal printer; with fuel `> n` it produces the decimal
digits of `n`, most significant first. -/
def natStrCore : Nat → Nat → List Char
  | 0, _ => []
  | fuel + 1, n =>
      if n < 10 then [digChar n]
      else natStrCore fuel (n / 10) ++ [digChar (n % 10)]

/-- Model of Python `str(n)` for a nonnegative integer `n`: its decimal
representation. -/
def natStr (n : Nat) : String :=
  String.mk (natStrCore (n + 1) n)

/-- Decimal reading, inverse of `natStrCore`. -/
def digitsVal (l : List Char) : Nat :=
  l.foldl (fun acc c => acc * 10 + digVal c) 0

theorem digVal_digChar {d : Nat} (h : d < 10) : digVal (digChar d) = d := by
  interval_cases d <;> rfl

theorem digitsVal_append (l : List Char) (c : Char) :
    digitsVal (l ++ [c]) = digitsVal l * 10 + digVal c := by
  simp [digitsVal, List.foldl_append]

theorem digitsVal_natStrCore :
    ∀ fuel n, n < fuel → digitsVal (natStrCore fuel n) = n := by
  intro fuel
  induction fuel with
  | zero => intro n h; omega
  | succ f ih =>
      intro n h
      by_cases h10 : n < 10
      · simp [natStrCore, h10, digitsVal, digVal_digChar h10]
      · have hdiv : n / 10 < n := Nat.div_lt_self (by omega) (by omega)
        have hf : n / 10 < f := by omega
        simp only [natStrCore, if_neg h10, digitsVal_append, ih _ hf]
        have := Nat.mod_lt n (show 0 < 10 by omega)
        rw [digVal_digChar this]
        omega

theorem natStr_injective : Function.Injective natStr := by
  intro m n h
  have hm := digitsVal_natStrCore (m + 1) m (by omega)
  have hn := digitsVal_natStrCore (n + 1) n (by omega)
  have hdata : natStrCore (m + 1) m = natStrCore (n + 1) n := by
    have := congrArg String.data h
    simpa [natStr] using this
  rw [hdata, hn] at hm
  omega

/-! ### The Sage graph, restricted to the operations the source uses

Sage's `Graph` (default flags: undirected, no loops, no multiple edges) is
modelled by its observable state.  Edge keys are stored normalized with the
smaller endpoint first, matching how Sage reports edges of an
integer-vertex graph.
-/

/-- Normalized edge key, smaller endpoint first. -/
def normEdge (u v : Nat) : Nat × Nat := (min u v, max u v)

/-- State of a `sage.graphs.graph.Graph` as used by the source. -/
structure Graph where
  vertexList : List Nat
  vertexAttrs : List (Nat × PyVal)
  posMap : Option (List (Nat × (ℚ × ℚ)))
  edgeList : List (Nat × Nat)
  edgeLabels : List ((Nat × Nat) × PyVal)

/-- Model of `sage.graphs.graph.Graph()`. -/
def Graph.emptyGraph : Graph :=
  ⟨[], [], Option.none, [], []⟩

/-- Model of `G.add_vertices(vs)`: append each vertex not already present. -/
def Graph.add_vertices (G : Graph) (vs : List Nat) : Graph :=
  vs.foldl
    (fun g v =>
      if v ∈ g.vertexList then g
      else { g with vertexList := g.vertexList ++ [v] })
    G

/-- Model of `G.set_pos(pos)`. -/
def Graph.set_pos (G : Graph) (p : List (Nat × (ℚ × ℚ))) : Graph :=
  { G with posMap := some p }

/-- Model of `G.get_pos()` (`None` when no position dictionary was set). -/
def Graph.get_pos (G : Graph) : Option (List (Nat × (ℚ × ℚ))) :=
  G.posMap

/-- Model of `G.set_vertex(v, info)`. -/
def Graph.set_vertex (G : Graph) (v : Nat) (info : PyVal) : Graph :=
  { G with vertexAttrs := assocSet G.vertexAttrs v info }

/-- Model of `G.get_vertex(v)` (`None` when no object is associated). -/
def Graph.get_vertex (G : Graph) (v : Nat) : PyVal :=
  (assocGet G.vertexAttrs v).getD PyVal.none

/-- Model of `G.add_edge(u, v)` on a default Sage graph: loops raise
`ValueError`; missing endpoints are added as vertices; re-adding an
existing edge resets its label to `None` (the importer always sets the
label right afterwards, so only the normalized key matters). -/
def Graph.add_edge (G : Graph) (u v : Nat) : Except PyErr Graph :=
  if u = v then .error .valueError
  else
    let G1 := G.add_vertices [u, v]
    let e := normEdge u v
    if e ∈ G1.edgeList then
      .ok { G1 with edgeLabels := assocSet G1.edgeLabels e PyVal.none }
    else
      .ok { G1 with
              edgeList := G1.edgeList ++ [e],
              edgeLabels := assocSet G1.edgeLabels e PyVal.none }

/-- Model of `G.set_edge_label(u, v, l)` (the source only calls it on edges
that are present). -/
def Graph.set_edge_label (G : Graph) (u v : Nat) (l : PyVal) : Graph :=
  { G with edgeLabels := assocSet G.edgeLabels (normEdge u v) l }

/-- Model of `G.edge_label(u, v)`. -/
def Graph.edge_label (G : Graph) (u v : Nat) : PyVal :=
  (assocGet G.edgeLabels (normEdge u v)).getD PyVal.none

/-- Model of `G.edges(sort=False)`; the source only uses the two endpoint
components of each edge tuple. -/
def Graph.edges (G : Graph) : List (Nat × Nat) :=
  G.edgeList

/-! ### The GeoGebra document

The `<construction>` children are modelled in document order.  XML
attribute text that the source converts with `int(...)` / `float(...)` is
stored as typed numbers (the conversion round-trips, see the header note).
-/

/-- Data of an `<element type="point">`: label, coords, objColor,
pointSize, pointStyle. -/
structure PointData where
  label : String
  x : ℚ
  y : ℚ
  r : Int
  g : Int
  b : Int
  alpha : ℚ
  size : Int
  style : Int
  deriving DecidableEq

/-- Data of an `<element type="segment">`: label, objColor, lineStyle
thickness. -/
structure SegmentData where
  label : String
  r : Int
  g : Int
  b : Int
  alpha : ℚ
  thickness : Int
  deriving DecidableEq

/-- An `<element>` child of the construction, distinguished by its `type`
attribute. -/
inductive GElement where
  | point (p : PointData)
  | segment (s : SegmentData)
  | other (typ lab : String)
  deriving DecidableEq

/-- Data of a `<command name="Segment">`: `input/@a0`, `input/@a1`,
`output/@a0`. -/
structure SegmentCmd where
  a0 : String
  a1 : String
  out : String
  deriving DecidableEq

/-- A `<command>` child of the construction. -/
inductive GCommand where
  | segmentCmd (c : SegmentCmd)
  | otherCmd (nm : String)
  deriving DecidableEq

/-- A child of `<construction>` (elements and commands interleaved in
document order). -/
inductive ConstructionChild where
  | elem (e : GElement)
  | cmd (c : GCommand)

/-- Parsed `geogebra.xml`: the root with its `<construction>` child. -/
structure Document where
  construction : List ConstructionChild

/-- Model of `c.findall('element')`: element children in document order. -/
def findallElements (cs : List ConstructionChild) : List GElement :=
  cs.filterMap fun c =>
    match c with
    | .elem e => some e
    | .cmd _ => Option.none

/-- Model of `c.findall('command')`: command children in document order. -/
def findallCommands (cs : List ConstructionChild) : List GCommand :=
  cs.filterMap fun c =>
    match c with
    | .elem _ => Option.none
    | .cmd c' => some c'

/-! ### Importer: `geogebra_to_graph`, lines 9–92 -/

/-- Vertex information dict built for a point element (lines 43–52). -/
def mkVertexInfo (p : PointData) : PyVal :=
  .dict
    [("label", .str p.label),
     ("color", .tuple [.int p.r, .int p.g, .int p.b, .rat p.alpha]),
     ("size", .int p.size),
     ("style", .int p.style)]

/-- Point scan of the element children (lines 30–54): starting at vertex
counter `v`, returns `vertex_labels`, `vertex_information` and the `pos`
dictionary entries. -/
def scanPoints : List GElement → Nat →
    List String × List PyVal × List (Nat × (ℚ × ℚ))
  | [], _ => ([], [], [])
  | .point p :: rest, v =>
      let (ls, infos, ps) := scanPoints rest (v + 1)
      (p.label :: ls, mkVertexInfo p :: infos, (v, (p.x, p.y)) :: ps)
  | .segment _ :: rest, v => scanPoints rest v
  | .other _ _ :: rest, v => scanPoints rest v

/-- Model of Python `vertex_labels.index(x)`: position of the first
occurrence, `ValueError` when absent (lines 69–70). -/
def listIndex (xs : List String) (x : String) : Except PyErr Nat :=
  match xs with
  | [] => .error .valueError
  | y :: ys =>
      if y = x then .ok 0
      else
        match listIndex ys x with
        | .ok i => .ok (i + 1)
        | .error e => .error e

/-- Sets `G.set_vertex(i, vertex_information[i])` for `i` ranging over the
information list, starting at index `i0` (lines 61–62; the list has exactly
`v` entries, so iterating the list is iterating `range(v)`). -/
def setVertexInfos (G : Graph) (i0 : Nat) : List PyVal → Graph
  | [] => G
  | info :: rest => setVertexInfos (G.set_vertex i0 info) (i0 + 1) rest

/-- Edge scan of the command children (lines 64–73): for every
`Segment` command, resolve the two endpoint labels with `list.index`,
`add_edge`, then `set_edge_label` with the output label. -/
def importEdges (vertex_labels : List String) :
    List GCommand → Graph → Except PyErr Graph
  | [], G => .ok G
  | .segmentCmd sc :: rest, G =>
      match listIndex vertex_labels sc.a0 with
      | .error e => .error e
      | .ok i0 =>
          match listIndex vertex_labels sc.a1 with
          | .error e => .error e
          | .ok i1 =>
              match G.add_edge i0 i1 with
              | .error e => .error e
              | .ok G' =>
                  importEdges vertex_labels rest
                    (G'.set_edge_label i0 i1 (.str sc.out))
  | .otherCmd _ :: rest, G => importEdges vertex_labels rest G

/-- Python comparison `elt.attrib['label'] == label` where `label` is the
value read from `edge_label` (string against arbitrary object). -/
def pyStrEq (s : String) (v : PyVal) : Bool :=
  match v with
  | .str t => s = t
  | _ => false

/-- Edge information dict built for a matching segment element
(lines 81–89); `lbl` is the value of the loop variable `label`. -/
def mkSegmentInfo (sd : SegmentData) (lbl : PyVal) : PyVal :=
  .dict
    [("label", lbl),
     ("color", .tuple [.int sd.r, .int sd.g, .int sd.b, .rat sd.alpha]),
     ("thickness", .int sd.thickness)]

/-- One step of the inner scan of lines 79–90: a segment element whose
label equals the edge's label `lbl` overwrites the running value with its
information dict; any other element leaves it unchanged. -/
def resolveStep (lbl acc : PyVal) (elt : GElement) : PyVal :=
  match elt with
  | .segment sd => if pyStrEq sd.label lbl then mkSegmentInfo sd lbl else acc
  | _ => acc

/-- Inner scan of lines 79–90 for one edge: every segment element whose
label equals the edge's current label overwrites the running value with
its information dict; with no match the value stays the bare label. -/
def resolveSegmentLabel (elts : List GElement) (lbl : PyVal) : PyVal :=
  elts.foldl (resolveStep lbl) lbl

/-- Second pass over the edges (lines 76–90): re-read each edge's label and
replace it by the resolved value. -/
def resolveEdgeStyles (elts : List GElement) (G : Graph) : Graph :=
  go G G.edges
where
  /-- Folds the edge list, one `set_edge_label` per edge. -/
  go : Graph → List (Nat × Nat) → Graph
    | g, [] => g
    | g, e :: rest =>
        go (g.set_edge_label e.1 e.2
              (resolveSegmentLabel elts (g.edge_label e.1 e.2))) rest

/-- Phases 1–2 of the importer (lines 28–73): build the vertices with
positions and attributes, then the edges with their temporary labels. -/
def importPhase12 (d : Document) : Except PyErr Graph :=
  let elts := findallElements d.construction
  let (vertex_labels, vertex_information, pos) := scanPoints elts 0
  let v := vertex_labels.length
  let G0 := (Graph.emptyGraph.add_vertices (List.range v)).set_pos pos
  let G1 := setVertexInfos G0 0 vertex_information
  importEdges vertex_labels (findallCommands d.construction) G1

/-- Importer body on a parsed document (lines 28–92). -/
def importDoc (d : Document) : Except PyErr Graph :=
  match importPhase12 d with
  | .error e => .error e
  | .ok G2 => .ok (resolveEdgeStyles (findallElements d.construction) G2)

/-! ### Container / filesystem model

The exporter writes an intermediate plain `geogebra.xml` file in the
working directory and then a zip archive at the destination path; the
importer opens a zip archive and parses its `geogebra.xml` entry.  The
filesystem is an explicit map from path to content.
-/

/-- Content of a plain text file: either text that parses as a GeoGebra
document, or text the XML parser rejects. -/
inductive TextContent where
  | xmlDoc (d : Document)
  | garbage

/-- Content of a file: plain text, a zip archive being written (its entries
not yet flushed), or a finished zip archive. -/
inductive FileContent where
  | text (t : TextContent)
  | zipPartial
  | zipArchive (entries : List (String × FileContent))

/-- A filesystem: map from path to file content. -/
abbrev FS := List (String × FileContent)

/-- Model of `geogebra_to_graph(ggb_filename)` including the container
layer (lines 24–25): `zipfile.ZipFile(..., 'r')` raises
`FileNotFoundError` for a missing path and `BadZipFile` for a non-archive;
`f.read("geogebra.xml")` raises `KeyError` for a missing entry;
`ET.fromstring` raises `ParseError` for content that is not a well-formed
document. -/
def geogebra_to_graph (ggb_filename : String) (fs : FS) : Except PyErr Graph :=
  match assocGet fs ggb_filename with
  | Option.none => .error .fileNotFoundError
  | some (.text _) => .error .badZipFile
  | some .zipPartial => .error .badZipFile
  | some (.zipArchive entries) =>
      match assocGet entries "geogebra.xml" with
      | Option.none => .error .keyError
      | some (.text (.xmlDoc d)) => importDoc d
      | some _ => .error .parseError

/-! ### Palette mapper: `geogebra_graph_plot`, lines 95–133 -/

/-- Python subscript `obj[key]` with a string key: dict lookup with
`KeyError` on a missing key; `None`, numbers, strings and tuples raise
`TypeError` for a string index. -/
def pySubscript (v : PyVal) (key : String) : Except PyErr PyVal :=
  match v with
  | .dict es =>
      match assocGet es key with
      | some w => .ok w
      | Option.none => .error .keyError
  | _ => .error .typeError

/-- Python slice `obj[:3]`: works on tuples and strings, raises `TypeError`
on dicts (unhashable slice key), `None` and numbers. -/
def pySlice3 (v : PyVal) : Except PyErr PyVal :=
  match v with
  | .tuple xs => .ok (.tuple (xs.take 3))
  | .str s => .ok (.str (s.take 3))
  | _ => .error .typeError

mutual

/-- Whether a value may be used as a dict key (Python hashability): dicts
are unhashable, tuples are hashable when their components are. -/
def pyHashable : PyVal → Bool
  | .dict _ => false
  | .tuple xs => pyHashableList xs
  | _ => true

/-- Hashability of every element of a list of values. -/
def pyHashableList : List PyVal → Bool
  | [] => true
  | x :: xs => pyHashable x && pyHashableList xs

end

/-- Python `==` between an int and an arbitrary value (numeric equality
across `int`/`float`). -/
def pyNumEqI (v : PyVal) (n : Int) : Bool :=
  match v with
  | .int m => m = n
  | .rat q => q = (n : ℚ)
  | _ => false

/-- Python `==` between an `(r, g, b)` int triple and an arbitrary value. -/
def pyEqTriple (c : PyVal) (k : Int × Int × Int) : Bool :=
  match c with
  | .tuple [a, b, d] => pyNumEqI a k.1 && pyNumEqI b k.2.1 && pyNumEqI d k.2.2
  | _ => false

/-- The `colors` dict of lines 98–105, in insertion order: stored RGB
triple to matplotlib color name. -/
def plotColors : List ((Int × Int × Int) × String) :=
  [((0, 255, 0), "springgreen"),
   ((255, 0, 0), "salmon"),
   ((0, 255, 255), "skyblue"),
   ((0, 0, 0), "black"),
   ((255, 0, 255), "magenta")]

/-- Fallback bucket for vertices (`other_v`, line 103). -/
def other_v : String := "skyblue"

/-- Fallback bucket for edges (`other_e`, line 104). -/
def other_e : String := "black"

/-- First palette entry whose key compares equal to `c`. -/
def paletteFind (c : PyVal) : List ((Int × Int × Int) × String) → Option String
  | [] => Option.none
  | (k, nm) :: rest => if pyEqTriple c k then some nm else paletteFind c rest

/-- Models `color_of_v in colors` followed by `colors[color_of_v]`:
`TypeError` when the probed value is unhashable, otherwise the matching
palette name if any. -/
def colorsLookup (c : PyVal) : Except PyErr (Option String) :=
  if pyHashable c then .ok (paletteFind c plotColors) else .error .typeError

/-- Empty buckets, one per palette color name, in `colors.values()` order
(lines 107–109 / 120–122). -/
def initBuckets (α : Type) : List (String × List α) :=
  plotColors.map fun p => (p.2, ([] : List α))

/-- Appends `x` to the bucket named `k` (Python `buckets[k].append(x)`;
the key is always present because the buckets were initialized). -/
def bucketAppend {α : Type} : List (String × List α) → String → α →
    List (String × List α)
  | [], _, _ => []
  | (k', xs) :: rest, k, x =>
      if k' = k then (k', xs ++ [x]) :: rest
      else (k', xs) :: bucketAppend rest k x

/-- Lines 111–114 for one vertex:
`try: color_of_v = G.get_vertex(v)['color'][:3] except TypeError:
color_of_v = other_v`.  Only `TypeError` is caught; a `KeyError` (dict
without a `'color'` key) propagates. -/
def vertexColorOf (G : Graph) (v : Nat) : Except PyErr PyVal :=
  match
    (match pySubscript (G.get_vertex v) "color" with
     | .error e => .error e
     | .ok c => pySlice3 c : Except PyErr PyVal) with
  | .ok c => .ok c
  | .error .typeError => .ok (.str other_v)
  | .error e => .error e

/-- Lines 124–127 for one edge, with fallback `other_e`. -/
def edgeColorOf (G : Graph) (e : Nat × Nat) : Except PyErr PyVal :=
  match
    (match pySubscript (G.edge_label e.1 e.2) "color" with
     | .error e' => .error e'
     | .ok c => pySlice3 c : Except PyErr PyVal) with
  | .ok c => .ok c
  | .error .typeError => .ok (.str other_e)
  | .error e' => .error e'

/-- Vertex bucketing loop (lines 110–118). -/
def plotVertexBuckets (G : Graph) :
    List Nat → List (String × List Nat) → Except PyErr (List (String × List Nat))
  | [], buckets => .ok buckets
  | v :: vs, buckets =>
      match vertexColorOf G v with
      | .error e => .error e
      | .ok c =>
          match colorsLookup c with
          | .error e => .error e
          | .ok (some nm) => plotVertexBuckets G vs (bucketAppend buckets nm v)
          | .ok Option.none => plotVertexBuckets G vs (bucketAppend buckets other_v v)

/-- Edge bucketing loop (lines 123–131). -/
def plotEdgeBuckets (G : Graph) :
    List (Nat × Nat) → List (String × List (Nat × Nat)) →
    Except PyErr (List (String × List (Nat × Nat)))
  | [], buckets => .ok buckets
  | e :: es, buckets =>
      match edgeColorOf G e with
      | .error e' => .error e'
      | .ok c =>
          match colorsLookup c with
          | .error e' => .error e'
          | .ok (some nm) => plotEdgeBuckets G es (bucketAppend buckets nm e)
          | .ok Option.none => plotEdgeBuckets G es (bucketAppend buckets other_e e)

/-- The bucketing performed by `geogebra_graph_plot` (lines 95–133): the
`vertex_colors` and `edge_colors` dictionaries handed to `G.plot`, which
itself is the external renderer. -/
def geogebra_graph_plot (G : Graph) :
    Except PyErr (List (String × List Nat) × List (String × List (Nat × Nat))) :=
  match plotVertexBuckets G G.vertexList (initBuckets Nat) with
  | .error e => .error e
  | .ok vertex_colors =>
      match plotEdgeBuckets G G.edges (initBuckets (Nat × Nat)) with
      | .error e => .error e
      | .ok edge_colors => .ok (vertex_colors, edge_colors)

/-! ### Exporter: `graph_to_geogebra`, lines 136–213 -/

/-- Whether the char list `needle` occurs as a prefix of `hay`. -/
def charPrefixTest : List Char → List Char → Bool
  | [], _ => true
  | _ :: _, [] => false
  | a :: as, b :: bs => a = b && charPrefixTest as bs

/-- Whether the char list `needle` occurs inside `hay`. -/
def charSubTest (needle : List Char) : List Char → Bool
  | [] => charPrefixTest needle []
  | c :: rest => charPrefixTest needle (c :: rest) || charSubTest needle rest

/-- Python `key in obj`: key lookup for dicts, substring for strings,
element equality for tuples; `TypeError` for `None` and numbers. -/
def pyContains (key : String) (v : PyVal) : Except PyErr Bool :=
  match v with
  | .dict es => .ok (assocGet es key).isSome
  | .str s => .ok (charSubTest key.data s.data)
  | .tuple xs => .ok (xs.any fun x => pyStrEq key x)
  | _ => .error .typeError

/-- Conversion of an attribute value to the integer the document stores.
Python interpolates `str(obj)` into the XML; a non-integer object would
make the emitted attribute unparseable as an `INT`, which the model
reports at export time. -/
def pyValToInt (v : PyVal) : Except PyErr Int :=
  match v with
  | .int n => .ok n
  | _ => .error .typeError

/-- Conversion of an attribute value to the rational the document stores
in a `FLOAT` attribute (an int serializes to text that `float` accepts). -/
def pyValToRat (v : PyVal) : Except PyErr ℚ :=
  match v with
  | .int n => .ok (n : ℚ)
  | .rat q => .ok q
  | _ => .error .typeError

/-- Python subscript `obj[i]` with an int index: tuple/string indexing with
`IndexError` out of range; a string-keyed dict raises `KeyError`; `None`
and numbers raise `TypeError`. -/
def pyIndex (v : PyVal) (i : Nat) : Except PyErr PyVal :=
  match v with
  | .tuple xs =>
      match xs.get? i with
      | some w => .ok w
      | Option.none => .error .indexError
  | .str s =>
      match s.data.get? i with
      | some c => .ok (.str (String.mk [c]))
      | Option.none => .error .indexError
  | .dict _ => .error .keyError
  | _ => .error .typeError

/-- Reads `info['color'][0] .. info['color'][3]` (lines 171–174) as the
numbers stored in the emitted `objColor` attributes. -/
def readColorComponents (cv : PyVal) : Except PyErr (Int × Int × Int × ℚ) :=
  match pyIndex cv 0 with
  | .error e => .error e
  | .ok c0 =>
      match pyValToInt c0 with
      | .error e => .error e
      | .ok r =>
          match pyIndex cv 1 with
          | .error e => .error e
          | .ok c1 =>
              match pyValToInt c1 with
              | .error e => .error e
              | .ok g =>
                  match pyIndex cv 2 with
                  | .error e => .error e
                  | .ok c2 =>
                      match pyValToInt c2 with
                      | .error e => .error e
                      | .ok b =>
                          match pyIndex cv 3 with
                          | .error e => .error e
                          | .ok c3 =>
                              match pyValToRat c3 with
                              | .error e => .error e
                              | .ok a => .ok (r, g, b, a)

/-- Lines 170–176: emitted point color, the stored `'color'` attribute when
present, otherwise the fixed default `(77, 77, 255, 0)`. -/
def exportColorOf (info : PyVal) : Except PyErr (Int × Int × Int × ℚ) :=
  match pyContains "color" info with
  | .error e => .error e
  | .ok true =>
      match pySubscript info "color" with
      | .error e => .error e
      | .ok cv => readColorComponents cv
  | .ok false => .ok (77, 77, 255, 0)

/-- Lines 180–187: emitted integer field (`'size'` default 5,
`'style'` default 0). -/
def exportIntField (info : PyVal) (key : String) (dflt : Int) :
    Except PyErr Int :=
  match pyContains key info with
  | .error e => .error e
  | .ok true =>
      match pySubscript info key with
      | .error e => .error e
      | .ok v => pyValToInt v
  | .ok false => .ok dflt

/-- Line 179: `pos[v]`, where `pos = G.get_pos()`.  An unset position
dictionary is `None` (`TypeError` on subscription); a missing vertex key
raises `KeyError`. -/
def posLookup (pos : Option (List (Nat × (ℚ × ℚ)))) (v : Nat) :
    Except PyErr (ℚ × ℚ) :=
  match pos with
  | Option.none => .error .typeError
  | some m =>
      match assocGet m v with
      | some p => .ok p
      | Option.none => .error .keyError

/-- Body of one iteration of the vertex loop (lines 168–188) given the
normalized `info` object: the emitted point element.  The document label is
`str(v)`, the vertex index — not the stored attribute label.  Evaluation
order matches the source: objColor, then coords, then pointSize, then
pointStyle. -/
def exportVertexChildInfo (G : Graph) (v : Nat) (info : PyVal) :
    Except PyErr ConstructionChild :=
  match exportColorOf info with
  | .error e => .error e
  | .ok (r, g, b, a) =>
      match posLookup G.get_pos v with
      | .error e => .error e
      | .ok p =>
          match exportIntField info "size" 5 with
          | .error e => .error e
          | .ok size =>
              match exportIntField info "style" 0 with
              | .error e => .error e
              | .ok style =>
                  .ok (.elem (.point
                    ⟨natStr v, p.1, p.2, r, g, b, a, size, style⟩))

/-- One iteration of the vertex loop (lines 162–188): read the vertex
object, replace `None` by an empty dict (lines 164–166), and emit the
point element. -/
def exportVertexChild (G : Graph) (v : Nat) : Except PyErr ConstructionChild :=
  exportVertexChildInfo G v
    (match G.get_vertex v with
     | PyVal.none => PyVal.dict []
     | i => i)

/-- The vertex loop over `G.vertices(sort=False)`. -/
def exportPoints (G : Graph) : List Nat → Except PyErr (List ConstructionChild)
  | [] => .ok []
  | v :: vs =>
      match exportVertexChild G v with
      | .error e => .error e
      | .ok ch =>
          match exportPoints G vs with
          | .error e => .error e
          | .ok rest => .ok (ch :: rest)

/-- Line 191: the synthesized label `f"edge-{e[0]}-{e[1]}"`. -/
def edgeLabelStr (e : Nat × Nat) : String :=
  "edge-" ++ natStr e.1 ++ "-" ++ natStr e.2

/-- The edge loop (lines 190–205): per edge a `Segment` command referencing
the endpoint indices, then a segment element with the fixed style
(objColor `(0,0,0,0)`, lineStyle thickness 5). -/
def exportEdges : List (Nat × Nat) → List ConstructionChild
  | [] => []
  | e :: es =>
      .cmd (.segmentCmd ⟨natStr e.1, natStr e.2, edgeLabelStr e⟩) ::
      .elem (.segment ⟨edgeLabelStr e, 0, 0, 0, 0, 5⟩) ::
      exportEdges es

/-- The document assembled by the exporter (lines 142–209); the preamble is
cosmetic and carries no graph data. -/
def buildDocument (G : Graph) : Except PyErr Document :=
  match exportPoints G G.vertexList with
  | .error e => .error e
  | .ok pts => .ok ⟨pts ++ exportEdges G.edges⟩

/-- Model of `graph_to_geogebra(G, ggb_filename)` (lines 136–213) on an
explicit filesystem: write the intermediate plain `geogebra.xml` in the
working directory, open the destination as a fresh zip archive
(truncating it), then archive the current content of the path
`geogebra.xml` under that entry name. -/
def graph_to_geogebra (G : Graph) (ggb_filename : String) (fs : FS) :
    Except PyErr FS :=
  match buildDocument G with
  | .error e => .error e
  | .ok d =>
      let fs1 := assocSet fs "geogebra.xml" (.text (.xmlDoc d))
      let fs2 := assocSet fs1 ggb_filename .zipPartial
      let content := (assocGet fs2 "geogebra.xml").getD (.text .garbage)
      .ok (assocSet fs2 ggb_filename (.zipArchive [("geogebra.xml", content)]))

/-! ### Basic lemmas about the helpers -/

theorem assocGet_assocSet_self {α β : Type} [DecidableEq α]
    (l : List (α × β)) (k : α) (v : β) :
    assocGet (assocSet l k v) k = some v := by
  induction l with
  | nil => simp [assocGet, assocSet]
  | cons hd tl ih =>
      obtain ⟨a, b⟩ := hd
      by_cases h : a = k
      · subst h; simp [assocSet, assocGet]
      · simp [assocSet, assocGet, h, ih]

theorem assocGet_assocSet_ne {α β : Type} [DecidableEq α]
    (l : List (α × β)) (k k' : α) (v : β) (h : k' ≠ k) :
    assocGet (assocSet l k v) k' = assocGet l k' := by
  induction l with
  | nil =>
      simp only [assocSet, assocGet]
      rw [if_neg fun hh => h hh.symm]
  | cons hd tl ih =>
      obtain ⟨a, b⟩ := hd
      by_cases ha : a = k
      · subst ha
        simp only [assocSet, if_pos rfl, assocGet]
        rw [if_neg fun hh => h hh.symm, if_neg fun hh => h hh.symm]
      · simp only [assocSet, if_neg ha, assocGet]
        by_cases ha' : a = k'
        · rw [if_pos ha', if_pos ha']
        · rw [if_neg ha', if_neg ha', ih]

theorem listIndex_ok_lt {xs : List String} {x : String} {i : Nat}
    (h : listIndex xs x = .ok i) : i < xs.length := by
  induction xs generalizing i with
  | nil => simp [listIndex] at h
  | cons y ys ih =>
      by_cases hy : y = x
      · simp only [listIndex, if_pos hy] at h
        cases h
        simp
      · simp only [listIndex, if_neg hy] at h
        cases h' : listIndex ys x with
        | ok j =>
            rw [h'] at h
            cases h
            have := ih h'
            simpa using Nat.succ_lt_succ this
        | error e => rw [h'] at h; cases h

theorem listIndex_ok_mem {xs : List String} {x : String} {i : Nat}
    (h : listIndex xs x = .ok i) : x ∈ xs := by
  induction xs generalizing i with
  | nil => simp [listIndex] at h
  | cons y ys ih =>
      by_cases hy : y = x
      · simp [hy]
      · simp only [listIndex, if_neg hy] at h
        cases h' : listIndex ys x with
        | ok j => exact List.mem_cons_of_mem _ (ih h')
        | error e => rw [h'] at h; cases h

theorem listIndex_get_of_nodup :
    ∀ (l : List String), l.Nodup → ∀ i (h : i < l.length),
      listIndex l (l.get ⟨i, h⟩) = .ok i := by
  intro l
  induction l with
  | nil => intro _ i h; simp at h
  | cons a t ih =>
      intro hnd i h
      match i with
      | 0 => simp [listIndex]
      | Nat.succ j =>
          have hj : j < t.length := by simpa using h
          have hget : (a :: t).get ⟨j + 1, h⟩ = t.get ⟨j, hj⟩ := rfl
          have hmem : t.get ⟨j, hj⟩ ∈ t := List.get_mem t j hj
          have hne : a ≠ t.get ⟨j, hj⟩ := by
            intro hcontra
            exact (List.nodup_cons.mp hnd).1 (hcontra ▸ hmem)
          rw [hget]
          simp only [listIndex, if_neg hne]
          rw [ih (List.nodup_cons.mp hnd).2 j hj]

theorem listIndex_natStr_range {n u : Nat} (h : u < n) :
    listIndex ((List.range n).map natStr) (natStr u) = .ok u := by
  have hnd : ((List.range n).map natStr).Nodup :=
    List.Nodup.map natStr_injective (List.nodup_range n)
  have hlen : u < ((List.range n).map natStr).length := by simpa using h
  have hget : ((List.range n).map natStr).get ⟨u, hlen⟩ = natStr u := by
    simp [List.get_eq_getElem]
  have := listIndex_get_of_nodup _ hnd u hlen
  rwa [hget] at this

/-! ### Frame lemmas for the graph operations -/

theorem add_vertices_step (G : Graph) (v : Nat) (vs : List Nat) :
    Graph.add_vertices G (v :: vs) =
      Graph.add_vertices
        (if v ∈ G.vertexList then G
         else { G with vertexList := G.vertexList ++ [v] }) vs := rfl

theorem add_vertices_fields (vs : List Nat) :
    ∀ G : Graph,
      (G.add_vertices vs).vertexAttrs = G.vertexAttrs ∧
      (G.add_vertices vs).posMap = G.posMap ∧
      (G.add_vertices vs).edgeList = G.edgeList ∧
      (G.add_vertices vs).edgeLabels = G.edgeLabels := by
  induction vs with
  | nil => intro G; exact ⟨rfl, rfl, rfl, rfl⟩
  | cons v vs ih =>
      intro G
      rw [add_vertices_step]
      obtain ⟨h1, h2, h3, h4⟩ := ih
        (if v ∈ G.vertexList then G
         else { G with vertexList := G.vertexList ++ [v] })
      rw [h1, h2, h3, h4]
      by_cases h : v ∈ G.vertexList <;> simp [h]

theorem add_vertices_eq_self (vs : List Nat) :
    ∀ G : Graph, (∀ x ∈ vs, x ∈ G.vertexList) → G.add_vertices vs = G := by
  induction vs with
  | nil => intro G _; rfl
  | cons v vs ih =>
      intro G h
      rw [add_vertices_step, if_pos (h v (by simp))]
      exact ih G fun x hx => h x (by simp [hx])

theorem normEdge_of_lt {u v : Nat} (h : u < v) : normEdge u v = (u, v) := by
  simp [normEdge, Nat.min_eq_left (Nat.le_of_lt h), Nat.max_eq_right (Nat.le_of_lt h)]

theorem add_edge_ok (G : Graph) (u v : Nat) (hne : u ≠ v)
    (hu : u ∈ G.vertexList) (hv : v ∈ G.vertexList)
    (hnotin : normEdge u v ∉ G.edgeList) :
    G.add_edge u v =
      .ok { G with
              edgeList := G.edgeList ++ [normEdge u v],
              edgeLabels := assocSet G.edgeLabels (normEdge u v) PyVal.none } := by
  have hself : G.add_vertices [u, v] = G := by
    apply add_vertices_eq_self
    intro x hx
    simp only [List.mem_cons, List.not_mem_nil, or_false] at hx
    rcases hx with rfl | rfl
    · exact hu
    · exact hv
  simp only [Graph.add_edge, hself, if_neg hne, if_neg hnotin]

theorem setVertexInfos_fields (infos : List PyVal) :
    ∀ (G : Graph) (i0 : Nat),
      (setVertexInfos G i0 infos).vertexList = G.vertexList ∧
      (setVertexInfos G i0 infos).posMap = G.posMap ∧
      (setVertexInfos G i0 infos).edgeList = G.edgeList ∧
      (setVertexInfos G i0 infos).edgeLabels = G.edgeLabels := by
  induction infos with
  | nil => intro G i0; exact ⟨rfl, rfl, rfl, rfl⟩
  | cons info rest ih =>
      intro G i0
      simp only [setVertexInfos]
      obtain ⟨h1, h2, h3, h4⟩ := ih (G.set_vertex i0 info) (i0 + 1)
      rw [h1, h2, h3, h4]
      exact ⟨rfl, rfl, rfl, rfl⟩

theorem setVertexInfos_get_vertex_lt (infos : List PyVal) :
    ∀ (G : Graph) (i0 k : Nat), k < i0 →
      (setVertexInfos G i0 infos).get_vertex k = G.get_vertex k := by
  induction infos with
  | nil => intro G i0 k _; rfl
  | cons info rest ih =>
      intro G i0 k hk
      simp only [setVertexInfos]
      rw [ih _ (i0 + 1) k (by omega)]
      simp [Graph.get_vertex, Graph.set_vertex,
        assocGet_assocSet_ne _ _ _ _ (by omega : k ≠ i0)]

theorem setVertexInfos_get_vertex (infos : List PyVal) :
    ∀ (G : Graph) (i0 j : Nat) (h : j < infos.length),
      (setVertexInfos G i0 infos).get_vertex (i0 + j) = infos.get ⟨j, h⟩ := by
  induction infos with
  | nil => intro G i0 j h; simp at h
  | cons info rest ih =>
      intro G i0 j h
      match j with
      | 0 =>
          simp only [setVertexInfos, Nat.add_zero]
          rw [setVertexInfos_get_vertex_lt rest _ (i0 + 1) i0 (by omega)]
          simp [Graph.get_vertex, Graph.set_vertex, assocGet_assocSet_self]
      | Nat.succ j' =>
          have h' : j' < rest.length := by simpa using h
          have : i0 + (j' + 1) = (i0 + 1) + j' := by omega
          simp only [setVertexInfos, this]
          rw [ih _ (i0 + 1) j' h']
          rfl

/-! ### Characterization of the point scan -/

/-- The point elements among a list of elements, in order. -/
def pointsOf (elts : List GElement) : List PointData :=
  elts.filterMap fun e =>
    match e with
    | .point p => some p
    | _ => Option.none

/-- The position entries produced for a list of points, keyed from `v0`. -/
def posListFrom (v0 : Nat) : List PointData → List (Nat × (ℚ × ℚ))
  | [] => []
  | p :: ps => (v0, (p.x, p.y)) :: posListFrom (v0 + 1) ps

theorem scanPoints_eq :
    ∀ (elts : List GElement) (v0 : Nat),
      scanPoints elts v0 =
        ((pointsOf elts).map PointData.label,
         (pointsOf elts).map mkVertexInfo,
         posListFrom v0 (pointsOf elts)) := by
  intro elts
  induction elts with
  | nil => intro v0; rfl
  | cons e rest ih =>
      intro v0
      cases e with
      | point p => simp [scanPoints, pointsOf, List.filterMap_cons, ih, posListFrom]
      | segment s => simpa [scanPoints, pointsOf, List.filterMap_cons] using ih v0
      | other t l => simpa [scanPoints, pointsOf, List.filterMap_cons] using ih v0

theorem assocGet_posListFrom :
    ∀ (ps : List PointData) (v0 i : Nat) (h : i < ps.length),
      assocGet (posListFrom v0 ps) (v0 + i) =
        some ((ps.get ⟨i, h⟩).x, (ps.get ⟨i, h⟩).y) := by
  intro ps
  induction ps with
  | nil => intro v0 i h; simp at h
  | cons p rest ih =>
      intro v0 i h
      match i with
      | 0 => simp [posListFrom, assocGet]
      | Nat.succ j =>
          have hj : j < rest.length := by simpa using h
          simp only [posListFrom, assocGet]
          rw [if_neg (by omega : ¬v0 = v0 + (j + 1)),
            (by omega : v0 + (j + 1) = (v0 + 1) + j), ih (v0 + 1) j hj]
          rfl

/-! ### Lemmas about the edge-import loop -/

theorem listIndex_error {xs : List String} {x : String} {e : PyErr}
    (h : listIndex xs x = .error e) : e = .valueError := by
  induction xs with
  | nil => simp [listIndex] at h; exact h.symm
  | cons y ys ih =>
      by_cases hy : y = x
      · simp [listIndex, hy] at h
      · simp only [listIndex, if_neg hy] at h
        cases h' : listIndex ys x with
        | ok j => rw [h'] at h; cases h
        | error e' => rw [h'] at h; cases h; exact ih h'

theorem add_edge_fields {G G' : Graph} {u v : Nat}
    (h : G.add_edge u v = .ok G') :
    G'.vertexAttrs = G.vertexAttrs ∧ G'.posMap = G.posMap := by
  by_cases hne : u = v
  · simp [Graph.add_edge, hne] at h
  · obtain ⟨h1, h2, _, _⟩ := add_vertices_fields [u, v] G
    simp only [Graph.add_edge, if_neg hne] at h
    by_cases hmem : normEdge u v ∈ (G.add_vertices [u, v]).edgeList
    · rw [if_pos hmem] at h
      cases h
      exact ⟨h1, h2⟩
    · rw [if_neg hmem] at h
      cases h
      exact ⟨h1, h2⟩

theorem add_edge_error {G : Graph} {u v : Nat} {e : PyErr}
    (h : G.add_edge u v = .error e) : e = .valueError := by
  by_cases hne : u = v
  · simp [Graph.add_edge, hne] at h
    exact h.symm
  · simp only [Graph.add_edge, if_neg hne] at h
    by_cases hmem : normEdge u v ∈ (G.add_vertices [u, v]).edgeList
    · rw [if_pos hmem] at h; cases h
    · rw [if_neg hmem] at h; cases h

theorem importEdges_ok_attrs_pos {ls : List String} :
    ∀ {cs : List GCommand} {g g' : Graph},
      importEdges ls cs g = .ok g' →
      g'.vertexAttrs = g.vertexAttrs ∧ g'.posMap = g.posMap := by
  intro cs
  induction cs with
  | nil => intro g g' h; cases h; exact ⟨rfl, rfl⟩
  | cons c rest ih =>
      intro g g' h
      cases c with
      | otherCmd nm => exact ih h
      | segmentCmd sc =>
          simp only [importEdges] at h
          cases h0 : listIndex ls sc.a0 with
          | error e => simp only [h0] at h; cases h
          | ok i0 =>
              simp only [h0] at h
              cases h1 : listIndex ls sc.a1 with
              | error e => simp only [h1] at h; cases h
              | ok i1 =>
                  simp only [h1] at h
                  cases h2 : g.add_edge i0 i1 with
                  | error e => simp only [h2] at h; cases h
                  | ok g1 =>
                      simp only [h2] at h
                      obtain ⟨ha, hp⟩ := ih h
                      obtain ⟨ha', hp'⟩ := add_edge_fields h2
                      exact ⟨ha.trans ha', hp.trans hp'⟩

theorem importEdges_error_valueError {ls : List String} :
    ∀ {cs : List GCommand} {g : Graph} {e : PyErr},
      importEdges ls cs g = .error e → e = .valueError := by
  intro cs
  induction cs with
  | nil => intro g e h; cases h
  | cons c rest ih =>
      intro g e h
      cases c with
      | otherCmd nm => exact ih h
      | segmentCmd sc =>
          simp only [importEdges] at h
          cases h0 : listIndex ls sc.a0 with
          | error e0 =>
              simp only [h0] at h
              cases h
              exact listIndex_error h0
          | ok i0 =>
              simp only [h0] at h
              cases h1 : listIndex ls sc.a1 with
              | error e1 =>
                  simp only [h1] at h
                  cases h
                  exact listIndex_error h1
              | ok i1 =>
                  simp only [h1] at h
                  cases h2 : g.add_edge i0 i1 with
                  | error e2 =>
                      simp only [h2] at h
                      cases h
                      exact add_edge_error h2
                  | ok g1 =>
                      simp only [h2] at h
                      exact ih h

theorem importEdges_ok_resolvable {ls : List String} :
    ∀ {cs : List GCommand} {g g' : Graph},
      importEdges ls cs g = .ok g' →
      ∀ sc : SegmentCmd, .segmentCmd sc ∈ cs → sc.a0 ∈ ls ∧ sc.a1 ∈ ls := by
  intro cs
  induction cs with
  | nil => intro g g' _ sc hmem; simp at hmem
  | cons c rest ih =>
      intro g g' h sc hmem
      cases c with
      | otherCmd nm =>
          rcases List.mem_cons.mp hmem with hc | hc
          · cases hc
          · exact ih h sc hc
      | segmentCmd sc' =>
          simp only [importEdges] at h
          cases h0 : listIndex ls sc'.a0 with
          | error e => simp only [h0] at h; cases h
          | ok i0 =>
              simp only [h0] at h
              cases h1 : listIndex ls sc'.a1 with
              | error e => simp only [h1] at h; cases h
              | ok i1 =>
                  simp only [h1] at h
                  cases h2 : g.add_edge i0 i1 with
                  | error e => simp only [h2] at h; cases h
                  | ok g1 =>
                      simp only [h2] at h
                      rcases List.mem_cons.mp hmem with hc | hc
                      · cases hc
                        exact ⟨listIndex_ok_mem h0, listIndex_ok_mem h1⟩
                      · exact ih h sc hc

/-! ### Lemmas about the second (style-resolution) pass -/

theorem resolve_go_fields (elts : List GElement) :
    ∀ (es : List (Nat × Nat)) (g : Graph),
      (resolveEdgeStyles.go elts g es).vertexList = g.vertexList ∧
      (resolveEdgeStyles.go elts g es).vertexAttrs = g.vertexAttrs ∧
      (resolveEdgeStyles.go elts g es).posMap = g.posMap ∧
      (resolveEdgeStyles.go elts g es).edgeList = g.edgeList := by
  intro es
  induction es with
  | nil => intro g; exact ⟨rfl, rfl, rfl, rfl⟩
  | cons e rest ih =>
      intro g
      simp only [resolveEdgeStyles.go]
      obtain ⟨h1, h2, h3, h4⟩ :=
        ih (g.set_edge_label e.1 e.2
              (resolveSegmentLabel elts (g.edge_label e.1 e.2)))
      rw [h1, h2, h3, h4]
      exact ⟨rfl, rfl, rfl, rfl⟩

theorem resolveEdgeStyles_fields (elts : List GElement) (g : Graph) :
    (resolveEdgeStyles elts g).vertexList = g.vertexList ∧
    (resolveEdgeStyles elts g).vertexAttrs = g.vertexAttrs ∧
    (resolveEdgeStyles elts g).posMap = g.posMap ∧
    (resolveEdgeStyles elts g).edgeList = g.edgeList :=
  resolve_go_fields elts g.edges g

theorem edge_label_set_self (g : Graph) (u v : Nat) (l : PyVal) :
    (g.set_edge_label u v l).edge_label u v = l := by
  simp [Graph.set_edge_label, Graph.edge_label, assocGet_assocSet_self]

theorem edge_label_set_ne (g : Graph) (u v u' v' : Nat) (l : PyVal)
    (h : normEdge u' v' ≠ normEdge u v) :
    (g.set_edge_label u v l).edge_label u' v' = g.edge_label u' v' := by
  simp [Graph.set_edge_label, Graph.edge_label,
    assocGet_assocSet_ne _ _ _ _ h]

theorem resolve_go_label_notmem (elts : List GElement) :
    ∀ (es : List (Nat × Nat)) (g : Graph) (e : Nat × Nat),
      (∀ x ∈ es, normEdge x.1 x.2 = x) → normEdge e.1 e.2 = e → e ∉ es →
      (resolveEdgeStyles.go elts g es).edge_label e.1 e.2 =
        g.edge_label e.1 e.2 := by
  intro es
  induction es with
  | nil => intro g e _ _ _; rfl
  | cons x rest ih =>
      intro g e hnorm he hmem
      simp only [resolveEdgeStyles.go]
      rw [ih _ e (fun y hy => hnorm y (by simp [hy])) he
            (fun hc => hmem (by simp [hc]))]
      apply edge_label_set_ne
      rw [he, hnorm x (by simp)]
      intro hc
      exact hmem (by simp [hc])

theorem resolve_go_label_mem (elts : List GElement) :
    ∀ (es : List (Nat × Nat)) (g : Graph) (e : Nat × Nat),
      es.Nodup → (∀ x ∈ es, normEdge x.1 x.2 = x) → e ∈ es →
      (resolveEdgeStyles.go elts g es).edge_label e.1 e.2 =
        resolveSegmentLabel elts (g.edge_label e.1 e.2) := by
  intro es
  induction es with
  | nil => intro g e _ _ hmem; simp at hmem
  | cons x rest ih =>
      intro g e hnd hnorm hmem
      simp only [resolveEdgeStyles.go]
      rcases List.mem_cons.mp hmem with rfl | hmem'
      · rw [resolve_go_label_notmem elts rest _ e
              (fun y hy => hnorm y (by simp [hy])) (hnorm e (by simp))
              (List.nodup_cons.mp hnd).1]
        exact edge_label_set_self _ _ _ _
      · rw [ih _ e (List.nodup_cons.mp hnd).2
              (fun y hy => hnorm y (by simp [hy])) hmem']
        congr 1
        apply edge_label_set_ne
        rw [hnorm e (List.mem_cons_of_mem x hmem'), hnorm x (by simp)]
        intro hc
        exact (List.nodup_cons.mp hnd).1 (hc ▸ hmem')

theorem resolveEdgeStyles_label (elts : List GElement) (g : Graph)
    (e : Nat × Nat) (hnd : g.edgeList.Nodup)
    (hnorm : ∀ x ∈ g.edgeList, normEdge x.1 x.2 = x) (hmem : e ∈ g.edgeList) :
    (resolveEdgeStyles elts g).edge_label e.1 e.2 =
      resolveSegmentLabel elts (g.edge_label e.1 e.2) :=
  resolve_go_label_mem elts g.edges g e hnd hnorm hmem

/-! ### Edge-shape invariants maintained by the import loop -/

theorem normEdge_of_le {u v : Nat} (h : u ≤ v) : normEdge u v = (u, v) := by
  simp [normEdge, Nat.min_eq_left h, Nat.max_eq_right h]

theorem normEdge_fst_lt {u v : Nat} (h : u ≠ v) :
    (normEdge u v).1 < (normEdge u v).2 := by
  rcases Nat.lt_trichotomy u v with hlt | heq | hgt
  · rw [normEdge_of_lt hlt]; exact hlt
  · exact absurd heq h
  · simp [normEdge, Nat.min_eq_right (Nat.le_of_lt hgt),
      Nat.max_eq_left (Nat.le_of_lt hgt)]
    exact hgt

theorem normEdge_idem (u v : Nat) :
    normEdge (normEdge u v).1 (normEdge u v).2 = normEdge u v :=
  normEdge_of_le (min_le_max)

theorem add_edge_ok_ne {G g1 : Graph} {u v : Nat}
    (h : G.add_edge u v = .ok g1) : u ≠ v := by
  intro hc
  simp [Graph.add_edge, hc] at h

theorem add_edge_cases {G : Graph} {u v : Nat} (hne : u ≠ v) :
    ∃ GA, G.add_edge u v = .ok GA ∧
      GA.edgeLabels = assocSet G.edgeLabels (normEdge u v) PyVal.none ∧
      GA.vertexAttrs = G.vertexAttrs ∧ GA.posMap = G.posMap ∧
      ((normEdge u v ∈ G.edgeList ∧ GA.edgeList = G.edgeList) ∨
       (normEdge u v ∉ G.edgeList ∧
        GA.edgeList = G.edgeList ++ [normEdge u v])) := by
  obtain ⟨h1, h2, h3, h4⟩ := add_vertices_fields [u, v] G
  by_cases hmem : normEdge u v ∈ (G.add_vertices [u, v]).edgeList
  · refine ⟨{ G.add_vertices [u, v] with
        edgeLabels :=
          assocSet (G.add_vertices [u, v]).edgeLabels (normEdge u v)
            PyVal.none }, ?_, ?_, ?_, ?_, ?_⟩
    · simp only [Graph.add_edge, if_neg hne, if_pos hmem]
    · show assocSet (G.add_vertices [u, v]).edgeLabels _ _ = _
      rw [h4]
    · exact h1
    · exact h2
    · left; rw [h3] at hmem; exact ⟨hmem, h3⟩
  · refine ⟨{ G.add_vertices [u, v] with
        edgeList := (G.add_vertices [u, v]).edgeList ++ [normEdge u v],
        edgeLabels :=
          assocSet (G.add_vertices [u, v]).edgeLabels (normEdge u v)
            PyVal.none }, ?_, ?_, ?_, ?_, ?_⟩
    · simp only [Graph.add_edge, if_neg hne, if_neg hmem]
    · show assocSet (G.add_vertices [u, v]).edgeLabels _ _ = _
      rw [h4]
    · exact h1
    · exact h2
    · right
      rw [h3] at hmem
      refine ⟨hmem, ?_⟩
      show (G.add_vertices [u, v]).edgeList ++ [normEdge u v] = _
      rw [h3]

theorem add_edge_ok_vertexList {G g1 : Graph} {u v : Nat}
    (h : G.add_edge u v = .ok g1) (hu : u ∈ G.vertexList)
    (hv : v ∈ G.vertexList) : g1.vertexList = G.vertexList := by
  have hne := add_edge_ok_ne h
  have hself : G.add_vertices [u, v] = G := by
    apply add_vertices_eq_self
    intro x hx
    simp only [List.mem_cons, List.not_mem_nil, or_false] at hx
    rcases hx with rfl | rfl
    · exact hu
    · exact hv
  simp only [Graph.add_edge, if_neg hne, hself] at h
  by_cases hmem : normEdge u v ∈ G.edgeList
  · rw [if_pos hmem] at h; cases h; rfl
  · rw [if_neg hmem] at h; cases h; rfl

theorem importEdges_ok_vertexList {ls : List String} :
    ∀ {cs : List GCommand} {g g' : Graph},
      importEdges ls cs g = .ok g' →
      (∀ i, i < ls.length → i ∈ g.vertexList) →
      g'.vertexList = g.vertexList := by
  intro cs
  induction cs with
  | nil => intro g g' h _; cases h; rfl
  | cons c rest ih =>
      intro g g' h hmem
      cases c with
      | otherCmd nm => exact ih h hmem
      | segmentCmd sc =>
          simp only [importEdges] at h
          cases h0 : listIndex ls sc.a0 with
          | error e => simp only [h0] at h; cases h
          | ok i0 =>
              simp only [h0] at h
              cases h1 : listIndex ls sc.a1 with
              | error e => simp only [h1] at h; cases h
              | ok i1 =>
                  simp only [h1] at h
                  cases h2 : g.add_edge i0 i1 with
                  | error e => simp only [h2] at h; cases h
                  | ok g1 =>
                      simp only [h2] at h
                      have hvl : g1.vertexList = g.vertexList :=
                        add_edge_ok_vertexList h2
                          (hmem i0 (listIndex_ok_lt h0))
                          (hmem i1 (listIndex_ok_lt h1))
                      have := ih h (g := g1.set_edge_label i0 i1 (.str sc.out))
                        (by intro i hi
                            show i ∈ (g1.set_edge_label i0 i1 (.str sc.out)).vertexList
                            simp only [Graph.set_edge_label]
                            rw [hvl]
                            exact hmem i hi)
                      rw [this]
                      simp only [Graph.set_edge_label]
                      exact hvl

theorem importEdges_ok_edge_invariant {ls : List String} :
    ∀ {cs : List GCommand} {g g' : Graph},
      importEdges ls cs g = .ok g' →
      g.edgeList.Nodup →
      (∀ e ∈ g.edgeList, normEdge e.1 e.2 = e ∧ e.1 < e.2) →
      (∀ e ∈ g.edgeList, ∃ s : String, g.edge_label e.1 e.2 = .str s) →
      g'.edgeList.Nodup ∧
      (∀ e ∈ g'.edgeList, normEdge e.1 e.2 = e ∧ e.1 < e.2) ∧
      (∀ e ∈ g'.edgeList, ∃ s : String, g'.edge_label e.1 e.2 = .str s) := by
  intro cs
  induction cs with
  | nil => intro g g' h hnd hnorm hlab; cases h; exact ⟨hnd, hnorm, hlab⟩
  | cons c rest ih =>
      intro g g' h hnd hnorm hlab
      cases c with
      | otherCmd nm => exact ih h hnd hnorm hlab
      | segmentCmd sc =>
          simp only [importEdges] at h
          cases h0 : listIndex ls sc.a0 with
          | error e => simp only [h0] at h; cases h
          | ok i0 =>
              simp only [h0] at h
              cases h1 : listIndex ls sc.a1 with
              | error e => simp only [h1] at h; cases h
              | ok i1 =>
                  simp only [h1] at h
                  cases h2 : g.add_edge i0 i1 with
                  | error e => simp only [h2] at h; cases h
                  | ok g1 =>
                      simp only [h2] at h
                      have hne := add_edge_ok_ne h2
                      obtain ⟨GA, hGA, hlabels, _, _, hcase⟩ :=
                        add_edge_cases (G := g) hne
                      have hg1 : g1 = GA := by
                        have heq := hGA.symm.trans h2
                        injection heq with heq'
                        exact heq'.symm
                      subst hg1
                      have hg2labels :
                          (g1.set_edge_label i0 i1 (.str sc.out)).edgeLabels =
                            assocSet g1.edgeLabels (normEdge i0 i1)
                              (PyVal.str sc.out) := rfl
                      have hg2list :
                          (g1.set_edge_label i0 i1 (.str sc.out)).edgeList =
                            g1.edgeList := rfl
                      have hlabel_k :
                          (g1.set_edge_label i0 i1 (.str sc.out)).edge_label
                              (normEdge i0 i1).1 (normEdge i0 i1).2 =
                            .str sc.out := by
                        show (assocGet
                            (g1.set_edge_label i0 i1 (.str sc.out)).edgeLabels
                            (normEdge (normEdge i0 i1).1
                              (normEdge i0 i1).2)).getD PyVal.none = _
                        rw [normEdge_idem, hg2labels, assocGet_assocSet_self]
                        rfl
                      have hlabel_ne : ∀ e : Nat × Nat, normEdge e.1 e.2 = e →
                          e ≠ normEdge i0 i1 →
                          (g1.set_edge_label i0 i1 (.str sc.out)).edge_label
                              e.1 e.2 =
                            g.edge_label e.1 e.2 := by
                        intro e henorm hek
                        show (assocGet
                            (g1.set_edge_label i0 i1 (.str sc.out)).edgeLabels
                            (normEdge e.1 e.2)).getD PyVal.none = _
                        rw [henorm, hg2labels, hlabels,
                          assocGet_assocSet_ne _ _ _ _ hek,
                          assocGet_assocSet_ne _ _ _ _ hek]
                        simp [Graph.edge_label, henorm]
                      rcases hcase with ⟨hmem, hlist⟩ | ⟨hmem, hlist⟩
                      · refine ih h ?_ ?_ ?_
                        · rw [hg2list, hlist]; exact hnd
                        · rw [hg2list, hlist]; exact hnorm
                        · intro e he
                          rw [hg2list, hlist] at he
                          by_cases hek : e = normEdge i0 i1
                          · subst hek
                            exact ⟨sc.out, hlabel_k⟩
                          · obtain ⟨s, hs⟩ := hlab e he
                            exact ⟨s, (hlabel_ne e (hnorm e he).1 hek).trans hs⟩
                      · have hknorm :
                            normEdge (normEdge i0 i1).1 (normEdge i0 i1).2 =
                              normEdge i0 i1 := normEdge_idem i0 i1
                        have hklt : (normEdge i0 i1).1 < (normEdge i0 i1).2 :=
                          normEdge_fst_lt hne
                        refine ih h ?_ ?_ ?_
                        · rw [hg2list, hlist]
                          simpa [List.nodup_append] using ⟨hnd, hmem⟩
                        · rw [hg2list, hlist]
                          intro e he
                          rcases List.mem_append.mp he with he' | he'
                          · exact hnorm e he'
                          · rw [List.mem_singleton] at he'
                            subst he'
                            exact ⟨hknorm, hklt⟩
                        · rw [hg2list, hlist]
                          intro e he
                          rcases List.mem_append.mp he with he' | he'
                          · by_cases hek : e = normEdge i0 i1
                            · subst hek
                              exact ⟨sc.out, hlabel_k⟩
                            · obtain ⟨s, hs⟩ := hlab e he'
                              exact ⟨s, (hlabel_ne e (hnorm e he').1 hek).trans hs⟩
                          · rw [List.mem_singleton] at he'
                            subst he'
                            exact ⟨sc.out, hlabel_k⟩

/-! ### Characterization of the import phases -/

/-- The point elements of a document, in document order. -/
def pointElements (d : Document) : List PointData :=
  pointsOf (findallElements d.construction)

/-- The importer's `vertex_labels` list: point labels in document order. -/
def pointLabels (d : Document) : List String :=
  (pointElements d).map PointData.label

/-- The graph built by phase 1 of the importer, before any edge is added. -/
def importStartGraph (d : Document) : Graph :=
  setVertexInfos
    ((Graph.emptyGraph.add_vertices
        (List.range (pointElements d).length)).set_pos
      (posListFrom 0 (pointElements d)))
    0 ((pointElements d).map mkVertexInfo)

theorem importPhase12_eq (d : Document) :
    importPhase12 d =
      importEdges (pointLabels d) (findallCommands d.construction)
        (importStartGraph d) := by
  unfold importPhase12 importStartGraph pointLabels pointElements
  simp [scanPoints_eq]

theorem add_vertices_vertexList_disjoint :
    ∀ (vs : List Nat) (G : Graph), vs.Nodup →
      (∀ x ∈ vs, x ∉ G.vertexList) →
      (G.add_vertices vs).vertexList = G.vertexList ++ vs := by
  intro vs
  induction vs with
  | nil => intro G _ _; simp [Graph.add_vertices]
  | cons v vs ih =>
      intro G hnd hdisj
      rw [add_vertices_step, if_neg (hdisj v (by simp))]
      rw [ih _ (List.nodup_cons.mp hnd).2]
      · simp
      · intro x hx
        simp only [List.mem_append, List.mem_singleton]
        intro hc
        rcases hc with hc | hc
        · exact hdisj x (by simp [hx]) hc
        · exact (List.nodup_cons.mp hnd).1 (hc ▸ hx)

theorem importStartGraph_vertexList (d : Document) :
    (importStartGraph d).vertexList =
      List.range (pointElements d).length := by
  unfold importStartGraph
  rw [(setVertexInfos_fields _ _ _).1]
  show (Graph.emptyGraph.add_vertices _).vertexList = _
  rw [add_vertices_vertexList_disjoint _ _ (List.nodup_range _) (by simp [Graph.emptyGraph])]
  simp [Graph.emptyGraph]

theorem importStartGraph_posMap (d : Document) :
    (importStartGraph d).posMap =
      some (posListFrom 0 (pointElements d)) := by
  unfold importStartGraph
  rw [(setVertexInfos_fields _ _ _).2.1]
  rfl

theorem importStartGraph_edgeList (d : Document) :
    (importStartGraph d).edgeList = [] := by
  unfold importStartGraph
  rw [(setVertexInfos_fields _ _ _).2.2.1]
  show (Graph.emptyGraph.add_vertices _).edgeList = []
  rw [(add_vertices_fields _ _).2.2.1]
  rfl

theorem importStartGraph_get_vertex (d : Document) (j : Nat)
    (h : j < (pointElements d).length) :
    (importStartGraph d).get_vertex j =
      mkVertexInfo ((pointElements d).get ⟨j, h⟩) := by
  unfold importStartGraph
  have hlen : j < ((pointElements d).map mkVertexInfo).length := by
    simpa using h
  have := setVertexInfos_get_vertex ((pointElements d).map mkVertexInfo)
    ((Graph.emptyGraph.add_vertices
        (List.range (pointElements d).length)).set_pos
      (posListFrom 0 (pointElements d))) 0 j hlen
  rw [Nat.zero_add] at this
  rw [this]
  simp [List.get_eq_getElem]

theorem get_vertex_of_attrs_eq {G G' : Graph}
    (h : G'.vertexAttrs = G.vertexAttrs) (v : Nat) :
    G'.get_vertex v = G.get_vertex v := by
  simp [Graph.get_vertex, h]

theorem importPhase12_ok_spec {d : Document} {G2 : Graph}
    (h : importPhase12 d = .ok G2) :
    G2.vertexList = List.range (pointElements d).length ∧
    G2.posMap = some (posListFrom 0 (pointElements d)) ∧
    (∀ j (hj : j < (pointElements d).length),
      G2.get_vertex j = mkVertexInfo ((pointElements d).get ⟨j, hj⟩)) ∧
    G2.edgeList.Nodup ∧
    (∀ e ∈ G2.edgeList, normEdge e.1 e.2 = e ∧ e.1 < e.2) ∧
    (∀ e ∈ G2.edgeList, ∃ s : String, G2.edge_label e.1 e.2 = .str s) := by
  rw [importPhase12_eq] at h
  have hmemv : ∀ i, i < (pointLabels d).length →
      i ∈ (importStartGraph d).vertexList := by
    intro i hi
    rw [importStartGraph_vertexList]
    rw [List.mem_range]
    simpa [pointLabels] using hi
  have hvl := importEdges_ok_vertexList h hmemv
  have hap := importEdges_ok_attrs_pos h
  have hinv := importEdges_ok_edge_invariant h
    (by rw [importStartGraph_edgeList]; exact List.nodup_nil)
    (by rw [importStartGraph_edgeList]; intro e he; cases he)
    (by rw [importStartGraph_edgeList]; intro e he; cases he)
  refine ⟨?_, ?_, ?_, hinv.1, hinv.2.1, hinv.2.2⟩
  · rw [hvl, importStartGraph_vertexList]
  · rw [hap.2, importStartGraph_posMap]
  · intro j hj
    rw [get_vertex_of_attrs_eq hap.1 j]
    exact importStartGraph_get_vertex d j hj

theorem importDoc_ok_phase12 {d : Document} {G : Graph}
    (h : importDoc d = .ok G) :
    ∃ G2, importPhase12 d = .ok G2 ∧
      G = resolveEdgeStyles (findallElements d.construction) G2 := by
  unfold importDoc at h
  cases h2 : importPhase12 d with
  | error e => rw [h2] at h; cases h
  | ok G2 => rw [h2] at h; cases h; exact ⟨G2, rfl, rfl⟩

/-! ### Lemmas about the single-edge style resolution -/

theorem resolve_foldl_no_match (lbl : PyVal) :
    ∀ (elts : List GElement) (acc : PyVal),
      (∀ sd : SegmentData, GElement.segment sd ∈ elts →
        pyStrEq sd.label lbl = false) →
      elts.foldl (resolveStep lbl) acc = acc := by
  intro elts
  induction elts with
  | nil => intro acc _; rfl
  | cons e rest ih =>
      intro acc hno
      cases e with
      | point p => exact ih acc fun sd hsd => hno sd (by simp [hsd])
      | other t l => exact ih acc fun sd hsd => hno sd (by simp [hsd])
      | segment sd =>
          have hfalse := hno sd (by simp)
          simp only [List.foldl_cons, resolveStep, hfalse, Bool.false_eq_true,
            if_false]
          exact ih acc fun sd' hsd' => hno sd' (by simp [hsd'])

theorem resolve_foldl_match (lbl : PyVal) :
    ∀ (elts : List GElement) (acc : PyVal),
      (∃ sd : SegmentData, GElement.segment sd ∈ elts ∧
        pyStrEq sd.label lbl = true) →
      ∃ sd : SegmentData, GElement.segment sd ∈ elts ∧
        pyStrEq sd.label lbl = true ∧
        elts.foldl (resolveStep lbl) acc = mkSegmentInfo sd lbl := by
  intro elts
  induction elts with
  | nil => intro acc h; obtain ⟨sd, hsd, _⟩ := h; simp at hsd
  | cons e rest ih =>
      intro acc hex
      by_cases hrest : ∃ sd : SegmentData, GElement.segment sd ∈ rest ∧
          pyStrEq sd.label lbl = true
      · obtain ⟨sd, hmem, htrue, heq⟩ := ih (resolveStep lbl acc e) hrest
        exact ⟨sd, by simp [hmem], htrue, heq⟩
      · obtain ⟨sd, hsd, htrue⟩ := hex
        rcases List.mem_cons.mp hsd with hhd | htl
        · have hstep : resolveStep lbl acc e = mkSegmentInfo sd lbl := by
            rw [← hhd]
            simp [resolveStep, htrue]
          refine ⟨sd, by simp [← hhd], htrue, ?_⟩
          rw [List.foldl_cons, hstep]
          apply resolve_foldl_no_match
          intro sd' hsd'
          by_contra hc
          exact hrest ⟨sd', hsd', by simpa using hc⟩
        · exact absurd ⟨sd, htl, htrue⟩ hrest

theorem resolveSegmentLabel_no_match (elts : List GElement) (s : String)
    (h : ∀ sd : SegmentData, GElement.segment sd ∈ elts → sd.label ≠ s) :
    resolveSegmentLabel elts (.str s) = .str s := by
  apply resolve_foldl_no_match
  intro sd hsd
  simp [pyStrEq]
  exact h sd hsd

theorem resolveSegmentLabel_match (elts : List GElement) (s : String)
    (h : ∃ sd : SegmentData, GElement.segment sd ∈ elts ∧ sd.label = s) :
    ∃ sd : SegmentData, GElement.segment sd ∈ elts ∧ sd.label = s ∧
      resolveSegmentLabel elts (.str s) = mkSegmentInfo sd (.str s) := by
  obtain ⟨sd, hmem, hlab⟩ := h
  obtain ⟨sd', hmem', htrue', heq'⟩ :=
    resolve_foldl_match (.str s) elts (.str s)
      ⟨sd, hmem, by simp [pyStrEq, hlab]⟩
  refine ⟨sd', hmem', ?_, heq'⟩
  simpa [pyStrEq] using htrue'

/-! ### Claim theorems -/

/-- Concrete document for C5: two point elements and nothing else. -/
def exDocC5 : Document :=
  ⟨[.elem (.point ⟨"A", 0, 0, 255, 0, 0, 0, 5, 0⟩),
    .elem (.point ⟨"B", 1, 1, 0, 255, 0, 0, 5, 0⟩)]⟩

/-- The graph the importer produces for `exDocC5`. -/
def exGC5 : Graph :=
  ⟨[0, 1],
   [(0, mkVertexInfo ⟨"A", 0, 0, 255, 0, 0, 0, 5, 0⟩),
    (1, mkVertexInfo ⟨"B", 1, 1, 0, 255, 0, 0, 5, 0⟩)],
   some [(0, (0, 0)), (1, (1, 1))],
   [], []⟩

/-- C5: for every input document, the imported graph's vertex set is exactly
the dense indices `0..v-1` where `v` is the number of point-typed elements,
assigned in document-scan order: vertex `j` carries the information dict of
the `j`-th point element (its original label included).  The importer is a
pure function of the document in this model, so importing the same document
twice yields definitionally the same assignment — the content of the
determinism clause is the stated order. -/
theorem import_vertex_indices (d : Document) (G : Graph)
    (h : importDoc d = .ok G) :
    G.vertexList = List.range (pointElements d).length ∧
    ∀ j (hj : j < (pointElements d).length),
      G.get_vertex j = mkVertexInfo ((pointElements d).get ⟨j, hj⟩) := by
  obtain ⟨G2, h12, rfl⟩ := importDoc_ok_phase12 h
  obtain ⟨hvl, _, hgv, _, _, _⟩ := importPhase12_ok_spec h12
  obtain ⟨hrv, hra, _, _⟩ :=
    resolveEdgeStyles_fields (findallElements d.construction) G2
  refine ⟨by rw [hrv, hvl], ?_⟩
  intro j hj
  rw [get_vertex_of_attrs_eq hra j]
  exact hgv j hj

/-- Witness for C5 at the concrete two-point document. -/
theorem import_vertex_indices_witness :
    exGC5.vertexList = List.range (pointElements exDocC5).length ∧
    exGC5.get_vertex 0 =
      mkVertexInfo ((pointElements exDocC5).get ⟨0, by decide⟩) ∧
    exGC5.get_vertex 1 =
      mkVertexInfo ((pointElements exDocC5).get ⟨1, by decide⟩) :=
  ⟨(import_vertex_indices exDocC5 exGC5 rfl).1,
   (import_vertex_indices exDocC5 exGC5 rfl).2 0 (by decide),
   (import_vertex_indices exDocC5 exGC5 rfl).2 1 (by decide)⟩

/-- Concrete document for C2: one point `A`, and a Segment command whose
endpoint `B` matches no point element's label. -/
def exDocC2 : Document :=
  ⟨[.elem (.point ⟨"A", 0, 0, 255, 0, 0, 0, 5, 0⟩),
    .cmd (.segmentCmd ⟨"A", "B", "s"⟩)]⟩

/-- Counterexample to C2: the claim says a Segment command with an
unresolvable endpoint label is silently skipped and the import still
succeeds; on this document `vertex_labels.index('B')` raises `ValueError`
and the import fails. -/
theorem segment_unresolved_import_crashes :
    importDoc exDocC2 = .error .valueError := by rfl

/-- C2 amended: a `Segment` command whose endpoint label does not match any
point element's label makes the importer raise `ValueError` (from
`list.index`); there is no silent skipping. -/
theorem import_unresolved_endpoint_valueError (d : Document)
    (h : ∃ sc : SegmentCmd,
      GCommand.segmentCmd sc ∈ findallCommands d.construction ∧
      (sc.a0 ∉ pointLabels d ∨ sc.a1 ∉ pointLabels d)) :
    importDoc d = .error .valueError := by
  obtain ⟨sc, hmem, hbad⟩ := h
  unfold importDoc
  cases h12 : importPhase12 d with
  | ok G2 =>
      exfalso
      rw [importPhase12_eq] at h12
      have hres := importEdges_ok_resolvable h12 sc hmem
      rcases hbad with hb | hb
      · exact hb hres.1
      · exact hb hres.2
  | error e =>
      rw [importPhase12_eq] at h12
      have he := importEdges_error_valueError h12
      subst he
      rfl

/-- Witness for the amended C2 at the concrete document. -/
theorem import_unresolved_endpoint_valueError_witness :
    importDoc exDocC2 = .error .valueError :=
  import_unresolved_endpoint_valueError exDocC2
    ⟨⟨"A", "B", "s"⟩, by decide, Or.inr (by decide)⟩

/-- Concrete graph for C3: one vertex whose attribute is an empty dict
(no `'color'` key). -/
def exGC3 : Graph :=
  ⟨[0], [(0, .dict [])], Option.none, [], []⟩

/-- C3 failing input: the palette mapper's `try` catches only `TypeError`
(its own comment claims the missing-key case is covered), so a vertex whose
attribute is a dict without a `'color'` key raises an uncaught `KeyError`
instead of falling back to the default bucket. -/
theorem palette_missing_color_key_keyError :
    geogebra_graph_plot exGC3 = .error .keyError := by rfl

/-- C4: each imported edge's attribute is first set by phase 2 to the
Segment command's output label (a bare string), and the second scan
overwrites it with the style dict (label, color 4-tuple, thickness) built
from a segment-typed element with an equal label when one exists; when no
segment element matches, the attribute remains the bare label string. -/
theorem edge_attribute_two_phase (d : Document) (G G2 : Graph)
    (h12 : importPhase12 d = .ok G2) (h : importDoc d = .ok G) :
    G.edgeList = G2.edgeList ∧
    ∀ e ∈ G2.edgeList, ∃ s : String,
      G2.edge_label e.1 e.2 = .str s ∧
      ((∀ sd : SegmentData,
          GElement.segment sd ∈ findallElements d.construction →
          sd.label ≠ s) →
        G.edge_label e.1 e.2 = .str s) ∧
      ((∃ sd : SegmentData,
          GElement.segment sd ∈ findallElements d.construction ∧
          sd.label = s) →
        ∃ sd : SegmentData,
          GElement.segment sd ∈ findallElements d.construction ∧
          sd.label = s ∧
          G.edge_label e.1 e.2 = mkSegmentInfo sd (.str s)) := by
  have hG : G = resolveEdgeStyles (findallElements d.construction) G2 := by
    unfold importDoc at h
    simp only [h12] at h
    cases h
    rfl
  subst hG
  obtain ⟨_, _, _, hnd, hnormlt, hlabs⟩ := importPhase12_ok_spec h12
  refine ⟨(resolveEdgeStyles_fields _ _).2.2.2, ?_⟩
  intro e he
  obtain ⟨s, hs⟩ := hlabs e he
  have hres := resolveEdgeStyles_label (findallElements d.construction) G2 e
    hnd (fun x hx => (hnormlt x hx).1) he
  rw [hs] at hres
  refine ⟨s, hs, ?_, ?_⟩
  · intro hno
    rw [hres]
    exact resolveSegmentLabel_no_match _ s hno
  · intro hyes
    obtain ⟨sd, hmem, hlab, heq⟩ :=
      resolveSegmentLabel_match (findallElements d.construction) s hyes
    exact ⟨sd, hmem, hlab, hres.trans heq⟩

/-- Concrete document for C4: two points, one Segment command and a
matching segment element (thickness 3). -/
def exDocC4 : Document :=
  ⟨[.elem (.point ⟨"A", 0, 0, 255, 0, 0, 0, 5, 0⟩),
    .elem (.point ⟨"B", 1, 1, 0, 255, 0, 0, 5, 0⟩),
    .cmd (.segmentCmd ⟨"A", "B", "s1"⟩),
    .elem (.segment ⟨"s1", 0, 0, 0, 0, 3⟩)]⟩

/-- The phase-1/2 graph for `exDocC4` (edge attribute still the bare
output label). -/
def exG2C4 : Graph :=
  ⟨[0, 1],
   [(0, mkVertexInfo ⟨"A", 0, 0, 255, 0, 0, 0, 5, 0⟩),
    (1, mkVertexInfo ⟨"B", 1, 1, 0, 255, 0, 0, 5, 0⟩)],
   some [(0, (0, 0)), (1, (1, 1))],
   [(0, 1)],
   [((0, 1), .str "s1")]⟩

/-- The final imported graph for `exDocC4` (edge attribute resolved to the
style dict). -/
def exGC4 : Graph :=
  ⟨[0, 1],
   [(0, mkVertexInfo ⟨"A", 0, 0, 255, 0, 0, 0, 5, 0⟩),
    (1, mkVertexInfo ⟨"B", 1, 1, 0, 255, 0, 0, 5, 0⟩)],
   some [(0, (0, 0)), (1, (1, 1))],
   [(0, 1)],
   [((0, 1), mkSegmentInfo ⟨"s1", 0, 0, 0, 0, 3⟩ (.str "s1"))]⟩

/-- Witness for C4 at the concrete document: the phase-2 label is the bare
string `"s1"` and the final attribute is the resolved style dict. -/
theorem edge_attribute_two_phase_witness :
    exGC4.edgeList = exG2C4.edgeList ∧
    exG2C4.edge_label 0 1 = .str "s1" ∧
    exGC4.edge_label 0 1 = mkSegmentInfo ⟨"s1", 0, 0, 0, 0, 3⟩ (.str "s1") := by
  have hthm := edge_attribute_two_phase exDocC4 exGC4 exG2C4 rfl rfl
  obtain ⟨s, hs, hno, hyes⟩ := hthm.2 (0, 1) (by decide)
  have hs01 : exG2C4.edge_label 0 1 = PyVal.str s := hs
  have hlit : PyVal.str s = PyVal.str "s1" :=
    hs01.symm.trans (by rfl)
  have hseq : s = "s1" := by injection hlit
  subst hseq
  obtain ⟨sd, hsdmem, hsdlab, hfin⟩ := hyes ⟨⟨"s1", 0, 0, 0, 0, 3⟩, by decide, rfl⟩
  have helts : findallElements exDocC4.construction =
      [.point ⟨"A", 0, 0, 255, 0, 0, 0, 5, 0⟩,
       .point ⟨"B", 1, 1, 0, 255, 0, 0, 5, 0⟩,
       .segment ⟨"s1", 0, 0, 0, 0, 3⟩] := rfl
  rw [helts] at hsdmem
  simp only [List.mem_cons, List.not_mem_nil, or_false] at hsdmem
  rcases hsdmem with hc | hc | hc
  · cases hc
  · cases hc
  · have hsd : sd = ⟨"s1", 0, 0, 0, 0, 3⟩ := by injection hc
    subst hsd
    exact ⟨hthm.1, hs01, hfin⟩

/-! ### Partition property of the palette buckets -/

theorem bucketAppend_keys {α : Type} :
    ∀ (bs : List (String × List α)) (k : String) (x : α),
      (bucketAppend bs k x).map Prod.fst = bs.map Prod.fst := by
  intro bs
  induction bs with
  | nil => intro k x; rfl
  | cons b rest ih =>
      intro k x
      obtain ⟨k', xs⟩ := b
      by_cases h : k' = k
      · simp [bucketAppend, h]
      · simp [bucketAppend, h, ih]

theorem bucketAppend_flatten_perm {α : Type} :
    ∀ (bs : List (String × List α)) (k : String) (x : α),
      k ∈ bs.map Prod.fst →
      List.Perm ((bucketAppend bs k x).map Prod.snd).flatten
        (x :: (bs.map Prod.snd).flatten) := by
  intro bs
  induction bs with
  | nil => intro k x hk; simp at hk
  | cons b rest ih =>
      intro k x hk
      obtain ⟨k', xs⟩ := b
      by_cases h : k' = k
      · simp only [bucketAppend, if_pos h, List.map_cons, List.flatten_cons]
        rw [List.append_assoc]
        exact List.perm_middle
      · have hk' : k ∈ rest.map Prod.fst := by
          simp only [List.map_cons, List.mem_cons] at hk
          rcases hk with hk | hk
          · exact absurd hk.symm h
          · exact hk
        simp only [bucketAppend, if_neg h, List.map_cons, List.flatten_cons]
        exact (List.Perm.append_left xs (ih k x hk')).trans List.perm_middle

theorem paletteFind_mem {c : PyVal} :
    ∀ {ps : List ((Int × Int × Int) × String)} {nm : String},
      paletteFind c ps = some nm → nm ∈ ps.map Prod.snd := by
  intro ps
  induction ps with
  | nil => intro nm h; cases h
  | cons p rest ih =>
      intro nm h
      simp only [paletteFind] at h
      by_cases hp : pyEqTriple c p.1
      · rw [if_pos hp] at h
        cases h
        simp
      · rw [if_neg hp] at h
        exact List.mem_cons_of_mem _ (ih h)

theorem colorsLookup_some_mem {c : PyVal} {nm : String}
    (h : colorsLookup c = .ok (some nm)) : nm ∈ plotColors.map Prod.snd := by
  unfold colorsLookup at h
  by_cases hh : pyHashable c
  · rw [if_pos hh] at h
    injection h with h'
    exact paletteFind_mem h'
  · rw [if_neg hh] at h
    cases h

theorem initBuckets_keys (α : Type) :
    (initBuckets α).map Prod.fst = plotColors.map Prod.snd := by
  simp [initBuckets]

theorem plotVertexBuckets_perm (G : Graph) :
    ∀ (vs : List Nat) (bs out : List (String × List Nat)),
      plotVertexBuckets G vs bs = .ok out →
      bs.map Prod.fst = plotColors.map Prod.snd →
      List.Perm ((out.map Prod.snd).flatten)
        ((bs.map Prod.snd).flatten ++ vs) := by
  intro vs
  induction vs with
  | nil =>
      intro bs out h hkeys
      cases h
      simp
  | cons v vs ih =>
      intro bs out h hkeys
      simp only [plotVertexBuckets] at h
      cases hc : vertexColorOf G v with
      | error e => simp only [hc] at h; cases h
      | ok c =>
          simp only [hc] at h
          cases hl : colorsLookup c with
          | error e => simp only [hl] at h; cases h
          | ok r =>
              simp only [hl] at h
              have hstep : ∀ nm, nm ∈ bs.map Prod.fst →
                  plotVertexBuckets G vs (bucketAppend bs nm v) = .ok out →
                  List.Perm ((out.map Prod.snd).flatten)
                    ((bs.map Prod.snd).flatten ++ (v :: vs)) := by
                intro nm hnm h'
                have hperm := ih (bucketAppend bs nm v) out h'
                  (by rw [bucketAppend_keys]; exact hkeys)
                exact hperm.trans
                  ((List.Perm.append_right vs
                      (bucketAppend_flatten_perm bs nm v hnm)).trans
                    (List.perm_middle).symm)
              cases r with
              | some nm =>
                  refine hstep nm ?_ h
                  rw [hkeys]
                  exact colorsLookup_some_mem hl
              | none =>
                  refine hstep other_v ?_ h
                  rw [hkeys]
                  decide

theorem plotEdgeBuckets_perm (G : Graph) :
    ∀ (es : List (Nat × Nat)) (bs out : List (String × List (Nat × Nat))),
      plotEdgeBuckets G es bs = .ok out →
      bs.map Prod.fst = plotColors.map Prod.snd →
      List.Perm ((out.map Prod.snd).flatten)
        ((bs.map Prod.snd).flatten ++ es) := by
  intro es
  induction es with
  | nil =>
      intro bs out h hkeys
      cases h
      simp
  | cons e es ih =>
      intro bs out h hkeys
      simp only [plotEdgeBuckets] at h
      cases hc : edgeColorOf G e with
      | error e' => simp only [hc] at h; cases h
      | ok c =>
          simp only [hc] at h
          cases hl : colorsLookup c with
          | error e' => simp only [hl] at h; cases h
          | ok r =>
              simp only [hl] at h
              have hstep : ∀ nm, nm ∈ bs.map Prod.fst →
                  plotEdgeBuckets G es (bucketAppend bs nm e) = .ok out →
                  List.Perm ((out.map Prod.snd).flatten)
                    ((bs.map Prod.snd).flatten ++ (e :: es)) := by
                intro nm hnm h'
                have hperm := ih (bucketAppend bs nm e) out h'
                  (by rw [bucketAppend_keys]; exact hkeys)
                exact hperm.trans
                  ((List.Perm.append_right es
                      (bucketAppend_flatten_perm bs nm e hnm)).trans
                    (List.perm_middle).symm)
              cases r with
              | some nm =>
                  refine hstep nm ?_ h
                  rw [hkeys]
                  exact colorsLookup_some_mem hl
              | none =>
                  refine hstep other_e ?_ h
                  rw [hkeys]
                  decide

/-- C9: whenever the palette mapper returns, the vertex buckets form a
partition of the vertex list (their concatenation is a permutation of it:
every vertex in exactly one bucket) and the edge buckets form a partition
of the edge list. -/
theorem palette_buckets_partition (G : Graph)
    (vb : List (String × List Nat)) (eb : List (String × List (Nat × Nat)))
    (h : geogebra_graph_plot G = .ok (vb, eb)) :
    List.Perm ((vb.map Prod.snd).flatten) G.vertexList ∧
    List.Perm ((eb.map Prod.snd).flatten) G.edges := by
  unfold geogebra_graph_plot at h
  cases hv : plotVertexBuckets G G.vertexList (initBuckets Nat) with
  | error e => simp only [hv] at h; cases h
  | ok vb' =>
      simp only [hv] at h
      cases he : plotEdgeBuckets G G.edges (initBuckets (Nat × Nat)) with
      | error e => simp only [he] at h; cases h
      | ok eb' =>
          simp only [he] at h
          injection h with h'
          have hvb : vb = vb' := (congrArg Prod.fst h').symm
          have heb : eb = eb' := (congrArg Prod.snd h').symm
          subst hvb
          subst heb
          constructor
          · have := plotVertexBuckets_perm G G.vertexList (initBuckets Nat)
              vb hv (initBuckets_keys Nat)
            simpa [initBuckets, plotColors] using this
          · have := plotEdgeBuckets_perm G G.edges (initBuckets (Nat × Nat))
              eb he (initBuckets_keys (Nat × Nat))
            simpa [initBuckets, plotColors] using this

/-- Concrete graph for C9: a red vertex, an unstyled vertex, and one edge
with a bare string label. -/
def exGC9 : Graph :=
  ⟨[0, 1],
   [(0, .dict [("color", .tuple [.int 255, .int 0, .int 0, .rat 0])])],
   Option.none,
   [(0, 1)],
   [((0, 1), .str "lbl")]⟩

/-- Witness for C9: on `exGC9` the mapper succeeds and both bucket families
concatenate to permutations of the vertex and edge lists. -/
theorem palette_buckets_partition_witness :
    List.Perm
      ((([("springgreen", ([] : List Nat)), ("salmon", [0]), ("skyblue", [1]),
          ("black", []), ("magenta", [])]).map Prod.snd).flatten)
      exGC9.vertexList ∧
    List.Perm
      ((([("springgreen", ([] : List (Nat × Nat))), ("salmon", []),
          ("skyblue", []), ("black", [(0, 1)]), ("magenta", [])]).map
            Prod.snd).flatten)
      exGC9.edges :=
  palette_buckets_partition exGC9 _ _ rfl

/-! ### Exporter error behavior (C8) -/

theorem exportVertexChild_attr_none {G : Graph} {v : Nat}
    (hattr : G.get_vertex v = PyVal.none) :
    exportVertexChild G v =
      match posLookup G.get_pos v with
      | .error e => .error e
      | .ok p =>
          .ok (.elem (.point ⟨natStr v, p.1, p.2, 77, 77, 255, 0, 5, 0⟩)) := by
  unfold exportVertexChild exportVertexChildInfo
  rw [hattr]
  rfl

theorem exportPoints_attr_none_keyError {G : Graph}
    {pm : List (Nat × (ℚ × ℚ))} (hpm : G.posMap = some pm) :
    ∀ vs : List Nat, (∀ v ∈ vs, G.get_vertex v = PyVal.none) →
      (∃ v ∈ vs, assocGet pm v = Option.none) →
      exportPoints G vs = .error .keyError := by
  intro vs
  induction vs with
  | nil =>
      rintro _ ⟨v, hv, _⟩
      simp at hv
  | cons v vs ih =>
      intro hattr hex
      have hchild := exportVertexChild_attr_none (hattr v (by simp))
      cases hget : assocGet pm v with
      | none =>
          have hpos : posLookup G.get_pos v = .error .keyError := by
            show posLookup G.posMap v = _
            rw [hpm]
            simp [posLookup, hget]
          simp only [exportPoints, hchild, hpos]
      | some p =>
          have hpos : posLookup G.get_pos v = .ok p := by
            show posLookup G.posMap v = _
            rw [hpm]
            simp [posLookup, hget]
          obtain ⟨w, hw, hwnone⟩ := hex
          have hwvs : w ∈ vs := by
            rcases List.mem_cons.mp hw with rfl | h'
            · rw [hget] at hwnone; cases hwnone
            · exact h'
          have htail := ih (fun x hx => hattr x (by simp [hx])) ⟨w, hwvs, hwnone⟩
          simp only [exportPoints, hchild, hpos, htail]

/-- C8 amended: when the position dictionary is set but some vertex has no
entry in it, the exporter fails with `KeyError` (not `ValueError`); stated
for graphs whose vertices carry no attribute dict, so that no
attribute-shape `TypeError` can fire first. -/
theorem export_missing_pos_keyError (G : Graph)
    (pm : List (Nat × (ℚ × ℚ))) (ggb : String) (fs : FS)
    (hpm : G.posMap = some pm)
    (hattr : ∀ v ∈ G.vertexList, G.get_vertex v = PyVal.none)
    (hmiss : ∃ v ∈ G.vertexList, assocGet pm v = Option.none) :
    graph_to_geogebra G ggb fs = .error .keyError := by
  have hpts := exportPoints_attr_none_keyError hpm G.vertexList hattr hmiss
  unfold graph_to_geogebra buildDocument
  simp only [hpts]

/-- Concrete graph for C8: one vertex, position dictionary set but empty. -/
def exGC8 : Graph :=
  ⟨[0], [], some [], [], []⟩

/-- Counterexample to C8: on a vertex without a position entry the exporter
raises `KeyError` (`pos[v]` on a dict missing the key), not the claimed
`ValueError`. -/
theorem export_missing_pos_not_valueError :
    graph_to_geogebra exGC8 "out.ggb" [] = .error .keyError ∧
    PyErr.keyError ≠ PyErr.valueError :=
  ⟨rfl, by decide⟩

/-- Witness for the amended C8 at the concrete graph. -/
theorem export_missing_pos_keyError_witness :
    graph_to_geogebra exGC8 "out.ggb" [] = .error .keyError :=
  export_missing_pos_keyError exGC8 [] "out.ggb" [] rfl
    (by intro v hv
        simp only [exGC8, List.mem_singleton] at hv
        subst hv
        rfl)
    ⟨0, by simp [exGC8], rfl⟩

/-! ### The intermediate `geogebra.xml` side effect (C10) -/

/-- C10 amended: for every destination path other than `geogebra.xml`
itself, a successful export leaves a plain-text `geogebra.xml` (holding the
serialized document) in the working directory. -/
theorem export_writes_intermediate_file (G : Graph) (ggb : String)
    (fs fs' : FS) (hne : ggb ≠ "geogebra.xml")
    (h : graph_to_geogebra G ggb fs = .ok fs') :
    ∃ d : Document, buildDocument G = .ok d ∧
      assocGet fs' "geogebra.xml" = some (.text (.xmlDoc d)) := by
  unfold graph_to_geogebra at h
  cases hd : buildDocument G with
  | error e => simp only [hd] at h; cases h
  | ok d =>
      simp only [hd] at h
      injection h with h'
      subst h'
      refine ⟨d, rfl, ?_⟩
      show assocGet
          (assocSet
            (assocSet (assocSet fs "geogebra.xml" (.text (.xmlDoc d))) ggb
              .zipPartial)
            ggb
            (.zipArchive
              [("geogebra.xml",
                (assocGet
                    (assocSet
                      (assocSet fs "geogebra.xml" (.text (.xmlDoc d))) ggb
                      .zipPartial)
                    "geogebra.xml").getD (.text .garbage))]))
          "geogebra.xml" = some (.text (.xmlDoc d))
      rw [assocGet_assocSet_ne _ _ _ _ (Ne.symm hne),
        assocGet_assocSet_ne _ _ _ _ (Ne.symm hne)]
      exact assocGet_assocSet_self _ _ _

/-- Concrete graph for C10: one vertex at the origin, no attributes. -/
def exGC10 : Graph :=
  ⟨[0], [], some [(0, (0, 0))], [], []⟩

/-- The document the exporter builds for `exGC10`. -/
def exDocC10 : Document :=
  ⟨[.elem (.point ⟨"0", 0, 0, 77, 77, 255, 0, 5, 0⟩)]⟩

/-- The filesystem after exporting `exGC10` to `out.ggb` from an empty
start: the intermediate plain `geogebra.xml` persists next to the archive. -/
def exFSC10w : FS :=
  [("geogebra.xml", .text (.xmlDoc exDocC10)),
   ("out.ggb", .zipArchive [("geogebra.xml", .text (.xmlDoc exDocC10))])]

/-- Witness for the amended C10. -/
theorem export_writes_intermediate_file_witness :
    assocGet exFSC10w "geogebra.xml" = some (.text (.xmlDoc exDocC10)) := by
  obtain ⟨d, hd, hget⟩ :=
    export_writes_intermediate_file exGC10 "out.ggb" [] exFSC10w
      (by decide) rfl
  have hdd : d = exDocC10 := by
    have h2 : Except.ok d = Except.ok exDocC10 :=
      hd.symm.trans (show buildDocument exGC10 = .ok exDocC10 from rfl)
    injection h2
  subst hdd
  exact hget

/-- The filesystem after exporting `exGC10` to the path `geogebra.xml`
itself: the archive write overwrites the intermediate plain file. -/
def exFSC10 : FS :=
  [("geogebra.xml", .zipArchive [("geogebra.xml", .zipPartial)])]

/-- Whether the file at path `p` is a plain text file. -/
def isPlainTextAt (fs : FS) (p : String) : Bool :=
  match assocGet fs p with
  | some (.text _) => true
  | _ => false

/-- Counterexample to C10: with destination path exactly `geogebra.xml`,
the zip container creation truncates and overwrites the just-written
intermediate plain file, so no plaintext `geogebra.xml` persists after the
call — contradicting the claim's "regardless of the destination path". -/
theorem export_to_geogebra_xml_overwritten :
    graph_to_geogebra exGC10 "geogebra.xml" [] = .ok exFSC10 ∧
    isPlainTextAt exFSC10 "geogebra.xml" = false :=
  ⟨rfl, rfl⟩

/-! ### Importer failure conditions (C7) -/

/-- C7 amended: the importer raises `KeyError` (not a `FormatError`, which
does not exist in the code) when the container lacks the `geogebra.xml`
entry, and `ParseError` when that entry does not parse as a document; a
Segment command whose output label never correlates with any segment
element causes no failure at all — the import returns a graph and the
affected edge keeps its bare label. -/
theorem import_error_conditions (fname : String) (fs : FS)
    (entries : List (String × FileContent))
    (harch : assocGet fs fname = some (.zipArchive entries)) :
    (assocGet entries "geogebra.xml" = Option.none →
      geogebra_to_graph fname fs = .error .keyError) ∧
    (∀ fc : FileContent, assocGet entries "geogebra.xml" = some fc →
      (∀ d : Document, fc ≠ .text (.xmlDoc d)) →
      geogebra_to_graph fname fs = .error .parseError) ∧
    (∀ (d : Document) (G2 : Graph),
      assocGet entries "geogebra.xml" = some (.text (.xmlDoc d)) →
      importPhase12 d = .ok G2 →
      geogebra_to_graph fname fs =
        .ok (resolveEdgeStyles (findallElements d.construction) G2)) := by
  refine ⟨?_, ?_, ?_⟩
  · intro hnone
    unfold geogebra_to_graph
    simp only [harch, hnone]
  · intro fc hfc hnotdoc
    cases fc with
    | text t =>
        cases t with
        | xmlDoc d => exact absurd rfl (hnotdoc d)
        | garbage =>
            unfold geogebra_to_graph
            simp only [harch, hfc]
    | zipPartial =>
        unfold geogebra_to_graph
        simp only [harch, hfc]
    | zipArchive es =>
        unfold geogebra_to_graph
        simp only [harch, hfc]
  · intro d G2 hd h12
    unfold geogebra_to_graph
    simp only [harch, hd]
    unfold importDoc
    simp only [h12]

/-- Witness for the amended C7: an archive without the `geogebra.xml`
entry makes the importer raise `KeyError`. -/
theorem import_error_conditions_witness :
    geogebra_to_graph "a.ggb" [("a.ggb", FileContent.zipArchive [])] =
      .error .keyError :=
  (import_error_conditions "a.ggb" [("a.ggb", FileContent.zipArchive [])]
    [] rfl).1 rfl

/-- Concrete document for C7: two points and a Segment command whose output
label `s1` matches no segment element. -/
def exDocC7 : Document :=
  ⟨[.elem (.point ⟨"A", 0, 0, 255, 0, 0, 0, 5, 0⟩),
    .elem (.point ⟨"B", 1, 1, 0, 255, 0, 0, 5, 0⟩),
    .cmd (.segmentCmd ⟨"A", "B", "s1"⟩)]⟩

/-- A container holding `exDocC7`. -/
def exFSC7 : FS :=
  [("f.ggb", .zipArchive [("geogebra.xml", .text (.xmlDoc exDocC7))])]

/-- The graph imported from `exFSC7`. -/
def exGC7 : Graph :=
  ⟨[0, 1],
   [(0, mkVertexInfo ⟨"A", 0, 0, 255, 0, 0, 0, 5, 0⟩),
    (1, mkVertexInfo ⟨"B", 1, 1, 0, 255, 0, 0, 5, 0⟩)],
   some [(0, (0, 0)), (1, (1, 1))],
   [(0, 1)],
   [((0, 1), .str "s1")]⟩

/-- Counterexample to C7: a Segment output label that never correlates with
a segment element does not make the importer fail — the import succeeds and
the edge's attribute stays the bare label `"s1"`. -/
theorem import_uncorrelated_label_succeeds :
    geogebra_to_graph "f.ggb" exFSC7 = .ok exGC7 ∧
    exGC7.edge_label 0 1 = .str "s1" :=
  ⟨rfl, rfl⟩

/-! ### Shape of the exported document -/

/-- The segment elements of a document, in document order. -/
def segmentElements (d : Document) : List SegmentData :=
  (findallElements d.construction).filterMap fun e =>
    match e with
    | .segment s => some s
    | _ => Option.none

/-- The Segment commands of a document, in document order. -/
def segmentCommands (d : Document) : List SegmentCmd :=
  (findallCommands d.construction).filterMap fun c =>
    match c with
    | .segmentCmd sc => some sc
    | _ => Option.none

theorem findallElements_append (xs ys : List ConstructionChild) :
    findallElements (xs ++ ys) = findallElements xs ++ findallElements ys := by
  simp [findallElements, List.filterMap_append]

theorem findallCommands_append (xs ys : List ConstructionChild) :
    findallCommands (xs ++ ys) = findallCommands xs ++ findallCommands ys := by
  simp [findallCommands, List.filterMap_append]

theorem findallElements_exportEdges :
    ∀ es : List (Nat × Nat),
      findallElements (exportEdges es) =
        es.map fun e => .segment ⟨edgeLabelStr e, 0, 0, 0, 0, 5⟩ := by
  intro es
  induction es with
  | nil => rfl
  | cons e es ih =>
      simp only [exportEdges, findallElements, List.filterMap_cons] at ih ⊢
      rw [ih]
      rfl

theorem findallCommands_exportEdges :
    ∀ es : List (Nat × Nat),
      findallCommands (exportEdges es) =
        es.map fun e => .segmentCmd ⟨natStr e.1, natStr e.2, edgeLabelStr e⟩ := by
  intro es
  induction es with
  | nil => rfl
  | cons e es ih =>
      simp only [exportEdges, findallCommands, List.filterMap_cons] at ih ⊢
      rw [ih]
      rfl

theorem findallElements_map_point (pds : List PointData) :
    findallElements (pds.map fun pd => ConstructionChild.elem (.point pd)) =
      pds.map GElement.point := by
  induction pds with
  | nil => rfl
  | cons pd pds ih =>
      simp only [List.map_cons, findallElements, List.filterMap_cons] at ih ⊢
      rw [ih]

theorem findallCommands_map_point (pds : List PointData) :
    findallCommands (pds.map fun pd => ConstructionChild.elem (.point pd)) =
      [] := by
  induction pds with
  | nil => rfl
  | cons pd pds ih =>
      simp only [List.map_cons, findallCommands, List.filterMap_cons] at ih ⊢
      rw [ih]

theorem pointsOf_map_point (pds : List PointData) :
    pointsOf (pds.map GElement.point) = pds := by
  induction pds with
  | nil => rfl
  | cons pd pds ih =>
      simp only [List.map_cons, pointsOf, List.filterMap_cons] at ih ⊢
      rw [ih]

theorem pointsOf_map_segment (es : List (Nat × Nat)) :
    pointsOf (es.map fun e =>
      GElement.segment ⟨edgeLabelStr e, 0, 0, 0, 0, 5⟩) = [] := by
  induction es with
  | nil => rfl
  | cons e es ih =>
      simp only [List.map_cons, pointsOf, List.filterMap_cons] at ih ⊢
      rw [ih]

theorem pointsOf_append (xs ys : List GElement) :
    pointsOf (xs ++ ys) = pointsOf xs ++ pointsOf ys := by
  simp [pointsOf, List.filterMap_append]

theorem segsOf_map_point (pds : List PointData) :
    (pds.map GElement.point).filterMap (fun e =>
      match e with
      | GElement.segment s => some s
      | _ => Option.none) = [] := by
  induction pds with
  | nil => rfl
  | cons pd pds ih =>
      simp only [List.map_cons, List.filterMap_cons] at ih ⊢
      rw [ih]

theorem segsOf_map_segment (es : List (Nat × Nat)) :
    (es.map fun e =>
        GElement.segment (⟨edgeLabelStr e, 0, 0, 0, 0, 5⟩ : SegmentData)).filterMap
      (fun e =>
        match e with
        | GElement.segment s => some s
        | _ => Option.none) =
      es.map fun e => (⟨edgeLabelStr e, 0, 0, 0, 0, 5⟩ : SegmentData) := by
  induction es with
  | nil => rfl
  | cons e es ih =>
      simp only [List.map_cons, List.filterMap_cons] at ih ⊢
      rw [ih]

theorem cmdsOf_map_segmentCmd (es : List (Nat × Nat)) :
    ((es.map fun e => GCommand.segmentCmd
        ⟨natStr e.1, natStr e.2, edgeLabelStr e⟩).filterMap fun c =>
      match c with
      | GCommand.segmentCmd sc => some sc
      | _ => Option.none) =
      es.map fun e => (⟨natStr e.1, natStr e.2, edgeLabelStr e⟩ : SegmentCmd) := by
  induction es with
  | nil => rfl
  | cons e es ih =>
      simp only [List.map_cons, List.filterMap_cons] at ih ⊢
      rw [ih]

theorem exportVertexChildInfo_ok_shape {G : Graph} {v : Nat} {info : PyVal}
    {ch : ConstructionChild} (h : exportVertexChildInfo G v info = .ok ch) :
    ∃ pd : PointData, ch = .elem (.point pd) ∧ pd.label = natStr v ∧
      posLookup G.get_pos v = .ok (pd.x, pd.y) := by
  unfold exportVertexChildInfo at h
  cases hc : exportColorOf info with
  | error e => simp only [hc] at h; cases h
  | ok rgba =>
      obtain ⟨r, g, b, a⟩ := rgba
      simp only [hc] at h
      cases hp : posLookup G.get_pos v with
      | error e => simp only [hp] at h; cases h
      | ok p =>
          simp only [hp] at h
          cases hs : exportIntField info "size" 5 with
          | error e => simp only [hs] at h; cases h
          | ok size =>
              simp only [hs] at h
              cases hst : exportIntField info "style" 0 with
              | error e => simp only [hst] at h; cases h
              | ok style =>
                  simp only [hst] at h
                  injection h with h'
                  subst h'
                  exact ⟨_, rfl, rfl, rfl⟩

theorem exportPoints_ok_shape {G : Graph} :
    ∀ (vs : List Nat) (chs : List ConstructionChild),
      exportPoints G vs = .ok chs →
      ∃ pds : List PointData,
        chs = pds.map (fun pd => ConstructionChild.elem (.point pd)) ∧
        List.Forall₂ (fun v pd => pd.label = natStr v ∧
          posLookup G.get_pos v = .ok (pd.x, pd.y)) vs pds := by
  intro vs
  induction vs with
  | nil =>
      intro chs h
      cases h
      exact ⟨[], rfl, List.Forall₂.nil⟩
  | cons v vs ih =>
      intro chs h
      simp only [exportPoints] at h
      cases hc : exportVertexChild G v with
      | error e => simp only [hc] at h; cases h
      | ok ch =>
          simp only [hc] at h
          cases hr : exportPoints G vs with
          | error e => simp only [hr] at h; cases h
          | ok rest =>
              simp only [hr] at h
              injection h with h'
              subst h'
              obtain ⟨pd, hch, hlab, hpos⟩ := exportVertexChildInfo_ok_shape hc
              obtain ⟨pds, hrest, hfa⟩ := ih rest hr
              exact ⟨pd :: pds, by rw [hch, hrest]; rfl,
                List.Forall₂.cons ⟨hlab, hpos⟩ hfa⟩

theorem exportPoints_attr_none_shape {G : Graph} :
    ∀ (vs : List Nat) (chs : List ConstructionChild),
      (∀ v ∈ vs, G.get_vertex v = PyVal.none) →
      exportPoints G vs = .ok chs →
      ∃ pds : List PointData,
        chs = pds.map (fun pd => ConstructionChild.elem (.point pd)) ∧
        List.Forall₂ (fun v pd => ∃ p : ℚ × ℚ,
          posLookup G.get_pos v = .ok p ∧
          pd = ⟨natStr v, p.1, p.2, 77, 77, 255, 0, 5, 0⟩) vs pds := by
  intro vs
  induction vs with
  | nil =>
      intro chs _ h
      cases h
      exact ⟨[], rfl, List.Forall₂.nil⟩
  | cons v vs ih =>
      intro chs hattr h
      simp only [exportPoints] at h
      have hchild := exportVertexChild_attr_none (hattr v (by simp))
      rw [hchild] at h
      cases hp : posLookup G.get_pos v with
      | error e => simp only [hp] at h; cases h
      | ok p =>
          simp only [hp] at h
          cases hr : exportPoints G vs with
          | error e => simp only [hr] at h; cases h
          | ok rest =>
              simp only [hr] at h
              injection h with h'
              subst h'
              obtain ⟨pds, hrest, hfa⟩ :=
                ih rest (fun x hx => hattr x (by simp [hx])) hr
              exact ⟨⟨natStr v, p.1, p.2, 77, 77, 255, 0, 5, 0⟩ :: pds,
                by rw [hrest]; rfl,
                List.Forall₂.cons ⟨p, hp, rfl⟩ hfa⟩

theorem buildDocument_ok_split {G : Graph} {d : Document}
    (h : buildDocument G = .ok d) :
    ∃ chs, exportPoints G G.vertexList = .ok chs ∧
      d = ⟨chs ++ exportEdges G.edges⟩ := by
  unfold buildDocument at h
  cases hp : exportPoints G G.vertexList with
  | error e => simp only [hp] at h; cases h
  | ok chs =>
      simp only [hp] at h
      injection h with h'
      exact ⟨chs, rfl, h'.symm⟩

/-- C6: exporting a graph whose vertices carry no attribute dict emits, for
every vertex in order, a point element with objColor `(77, 77, 255, 0)`,
pointSize 5 and pointStyle 0 (at the vertex's position, labeled with its
index), and for every edge a `Segment` command together with a segment
element with objColor `(0, 0, 0, 0)` and lineStyle thickness 5. -/
theorem export_defaults (G : Graph) (d : Document)
    (hattr : ∀ v ∈ G.vertexList, G.get_vertex v = PyVal.none)
    (hdoc : buildDocument G = .ok d) :
    List.Forall₂ (fun v pd => ∃ p : ℚ × ℚ,
        posLookup G.get_pos v = .ok p ∧
        pd = ⟨natStr v, p.1, p.2, 77, 77, 255, 0, 5, 0⟩)
      G.vertexList (pointElements d) ∧
    segmentCommands d =
      G.edges.map (fun e => ⟨natStr e.1, natStr e.2, edgeLabelStr e⟩) ∧
    segmentElements d =
      G.edges.map (fun e => ⟨edgeLabelStr e, 0, 0, 0, 0, 5⟩) := by
  obtain ⟨chs, hp, hd⟩ := buildDocument_ok_split hdoc
  obtain ⟨pds, hchs, hfa⟩ :=
    exportPoints_attr_none_shape G.vertexList chs hattr hp
  subst hd
  subst hchs
  have helts : findallElements
      ((pds.map fun pd => ConstructionChild.elem (.point pd)) ++
        exportEdges G.edges) =
      pds.map GElement.point ++
        (G.edges.map fun e => .segment ⟨edgeLabelStr e, 0, 0, 0, 0, 5⟩) := by
    rw [findallElements_append, findallElements_map_point,
      findallElements_exportEdges]
  refine ⟨?_, ?_, ?_⟩
  · show List.Forall₂ _ G.vertexList (pointsOf (findallElements _))
    rw [helts, pointsOf_append, pointsOf_map_point, pointsOf_map_segment,
      List.append_nil]
    exact hfa
  · show ((findallCommands _).filterMap _) = _
    rw [findallCommands_append, findallCommands_map_point,
      findallCommands_exportEdges, List.nil_append, cmdsOf_map_segmentCmd]
  · show ((findallElements _).filterMap _) = _
    rw [helts, List.filterMap_append, segsOf_map_point, segsOf_map_segment,
      List.nil_append]

/-- Concrete graph for C6: two unstyled vertices and one edge. -/
def exGC6 : Graph :=
  ⟨[0, 1], [], some [(0, (0, 0)), (1, (1, 1))], [(0, 1)], []⟩

/-- The document exported from `exGC6`. -/
def exDocC6 : Document :=
  ⟨[.elem (.point ⟨"0", 0, 0, 77, 77, 255, 0, 5, 0⟩),
    .elem (.point ⟨"1", 1, 1, 77, 77, 255, 0, 5, 0⟩),
    .cmd (.segmentCmd ⟨"0", "1", "edge-0-1"⟩),
    .elem (.segment ⟨"edge-0-1", 0, 0, 0, 0, 5⟩)]⟩

/-- Witness for C6 at the concrete graph. -/
theorem export_defaults_witness :
    segmentCommands exDocC6 =
      exGC6.edges.map (fun e => ⟨natStr e.1, natStr e.2, edgeLabelStr e⟩) ∧
    segmentElements exDocC6 =
      exGC6.edges.map (fun e => ⟨edgeLabelStr e, 0, 0, 0, 0, 5⟩) :=
  ⟨(export_defaults exGC6 exDocC6 (fun _ _ => rfl) rfl).2.1,
   (export_defaults exGC6 exDocC6 (fun _ _ => rfl) rfl).2.2⟩

/-! ### The round trip (C1) -/

theorem forall₂_map_eq {α β γ : Type} {R : α → β → Prop} {f : β → γ}
    {g : α → γ} {l₁ : List α} {l₂ : List β} (h : List.Forall₂ R l₁ l₂)
    (hfg : ∀ a b, R a b → f b = g a) : l₂.map f = l₁.map g := by
  induction h with
  | nil => rfl
  | cons hr _ ih => simp only [List.map_cons, hfg _ _ hr, ih]

theorem importEdges_map_export {n : Nat} :
    ∀ (es : List (Nat × Nat)) (g : Graph),
      (∀ e ∈ es, e.1 < e.2 ∧ e.2 < n) →
      (∀ e ∈ es, e ∉ g.edgeList) →
      es.Nodup →
      g.vertexList = List.range n →
      ∃ g', importEdges ((List.range n).map natStr)
          (es.map fun e => GCommand.segmentCmd
            ⟨natStr e.1, natStr e.2, edgeLabelStr e⟩) g = .ok g' ∧
        g'.edgeList = g.edgeList ++ es ∧
        g'.vertexList = g.vertexList ∧
        g'.posMap = g.posMap := by
  intro es
  induction es with
  | nil =>
      intro g _ _ _ _
      exact ⟨g, rfl, by simp, rfl, rfl⟩
  | cons e es ih =>
      intro g hbound hnot hnd hvl
      obtain ⟨h1, h2⟩ := hbound e (by simp)
      have hi0 : listIndex ((List.range n).map natStr) (natStr e.1) = .ok e.1 :=
        listIndex_natStr_range (lt_trans h1 h2)
      have hi1 : listIndex ((List.range n).map natStr) (natStr e.2) = .ok e.2 :=
        listIndex_natStr_range h2
      have hne : e.1 ≠ e.2 := Nat.ne_of_lt h1
      have hnorm : normEdge e.1 e.2 = e := by rw [normEdge_of_lt h1]
      have hmemu : e.1 ∈ g.vertexList := by
        rw [hvl]; exact List.mem_range.mpr (lt_trans h1 h2)
      have hmemv : e.2 ∈ g.vertexList := by
        rw [hvl]; exact List.mem_range.mpr h2
      have hnotin : normEdge e.1 e.2 ∉ g.edgeList := by
        rw [hnorm]; exact hnot e (by simp)
      have hadd := add_edge_ok g e.1 e.2 hne hmemu hmemv hnotin
      simp only [List.map_cons, importEdges, hi0, hi1, hadd]
      obtain ⟨g', hok, hel, hvl', hpm'⟩ := ih
        (({ g with
              edgeList := g.edgeList ++ [normEdge e.1 e.2],
              edgeLabels :=
                assocSet g.edgeLabels (normEdge e.1 e.2)
                  PyVal.none }).set_edge_label e.1 e.2
          (.str (edgeLabelStr e)))
        (fun x hx => hbound x (by simp [hx]))
        (by
          intro x hx
          show x ∉ g.edgeList ++ [normEdge e.1 e.2]
          rw [hnorm]
          simp only [List.mem_append, List.mem_singleton]
          intro hc
          rcases hc with hc | hc
          · exact hnot x (by simp [hx]) hc
          · exact (List.nodup_cons.mp hnd).1 (hc ▸ hx))
        (List.nodup_cons.mp hnd).2
        (by show g.vertexList = List.range n; exact hvl)
      refine ⟨g', hok, ?_, hvl', hpm'⟩
      rw [hel, hnorm]
      show (g.edgeList ++ [e]) ++ es = g.edgeList ++ e :: es
      rw [List.append_assoc]
      rfl

/-- C1: for every graph with vertex set `0..n-1`, normalized duplicate-free
edges inside that range, and a successful export, importing the exported
document yields a graph with the same vertex list (the identity is an
isomorphism), an identical position map on every vertex, and an identical
edge list. -/
theorem geogebra_roundtrip (G : Graph) (n : Nat) (d : Document)
    (hv : G.vertexList = List.range n)
    (heb : ∀ e ∈ G.edgeList, e.1 < e.2 ∧ e.2 < n)
    (hnd : G.edgeList.Nodup)
    (hdoc : buildDocument G = .ok d) :
    ∃ H : Graph, importDoc d = .ok H ∧
      H.vertexList = G.vertexList ∧
      (∀ v ∈ G.vertexList, posLookup H.posMap v = posLookup G.posMap v) ∧
      H.edgeList = G.edgeList := by
  obtain ⟨chs, hp, hd⟩ := buildDocument_ok_split hdoc
  obtain ⟨pds, hchs, hfa⟩ := exportPoints_ok_shape G.vertexList chs hp
  subst hd
  subst hchs
  rw [hv] at hfa
  have hlabels : pds.map PointData.label = (List.range n).map natStr :=
    forall₂_map_eq hfa fun _ _ hr => hr.1
  have hlen : pds.length = n := by
    have := List.Forall₂.length_eq hfa
    simpa using this.symm
  have helts : findallElements
      ((pds.map fun pd => ConstructionChild.elem (.point pd)) ++
        exportEdges G.edges) =
      pds.map GElement.point ++
        (G.edges.map fun e => .segment ⟨edgeLabelStr e, 0, 0, 0, 0, 5⟩) := by
    rw [findallElements_append, findallElements_map_point,
      findallElements_exportEdges]
  have hpts : pointElements
      ⟨(pds.map fun pd => ConstructionChild.elem (.point pd)) ++
        exportEdges G.edges⟩ = pds := by
    show pointsOf (findallElements _) = pds
    rw [helts, pointsOf_append, pointsOf_map_point, pointsOf_map_segment,
      List.append_nil]
  have hcmds : findallCommands
      ((pds.map fun pd => ConstructionChild.elem (.point pd)) ++
        exportEdges G.edges) =
      G.edges.map fun e => GCommand.segmentCmd
        ⟨natStr e.1, natStr e.2, edgeLabelStr e⟩ := by
    rw [findallCommands_append, findallCommands_map_point,
      findallCommands_exportEdges, List.nil_append]
  have hstart_v : (importStartGraph
      ⟨(pds.map fun pd => ConstructionChild.elem (.point pd)) ++
        exportEdges G.edges⟩).vertexList = List.range n := by
    rw [importStartGraph_vertexList, hpts, hlen]
  have hstart_pos : (importStartGraph
      ⟨(pds.map fun pd => ConstructionChild.elem (.point pd)) ++
        exportEdges G.edges⟩).posMap = some (posListFrom 0 pds) := by
    rw [importStartGraph_posMap, hpts]
  have hstart_e := importStartGraph_edgeList
    ⟨(pds.map fun pd => ConstructionChild.elem (.point pd)) ++
      exportEdges G.edges⟩
  obtain ⟨g', hok, hel, hvl', hpm'⟩ := importEdges_map_export G.edgeList
    (importStartGraph
      ⟨(pds.map fun pd => ConstructionChild.elem (.point pd)) ++
        exportEdges G.edges⟩)
    heb
    (by intro e _; rw [hstart_e]; exact List.not_mem_nil e)
    hnd hstart_v
  have h12 : importPhase12
      ⟨(pds.map fun pd => ConstructionChild.elem (.point pd)) ++
        exportEdges G.edges⟩ = .ok g' := by
    rw [importPhase12_eq]
    have hpl : pointLabels
        ⟨(pds.map fun pd => ConstructionChild.elem (.point pd)) ++
          exportEdges G.edges⟩ = (List.range n).map natStr := by
      show (pointElements _).map PointData.label = _
      rw [hpts, hlabels]
    rw [hpl, hcmds]
    exact hok
  refine ⟨resolveEdgeStyles (findallElements
      ((pds.map fun pd => ConstructionChild.elem (.point pd)) ++
        exportEdges G.edges)) g', ?_, ?_, ?_, ?_⟩
  · unfold importDoc
    simp only [h12]
  · rw [(resolveEdgeStyles_fields _ _).1, hvl', hstart_v, hv]
  · intro v hvmem
    rw [(resolveEdgeStyles_fields _ _).2.2.1, hpm', hstart_pos]
    have hvn : v < n := by
      rw [hv] at hvmem
      exact List.mem_range.mp hvmem
    have hvlen : v < pds.length := by omega
    obtain ⟨-, hget⟩ := List.forall₂_iff_get.mp hfa
    have hR := hget v (by simpa using hvn) hvlen
    rw [List.get_range] at hR
    obtain ⟨-, hpos⟩ := hR
    have hassoc := assocGet_posListFrom pds 0 v hvlen
    rw [Nat.zero_add] at hassoc
    show posLookup (some (posListFrom 0 pds)) v = _
    simp only [posLookup, hassoc]
    exact hpos.symm
  · rw [(resolveEdgeStyles_fields _ _).2.2.2, hel, hstart_e, List.nil_append]

/-- Concrete graph for C1: the path on two vertices with positions. -/
def exGC1 : Graph :=
  ⟨[0, 1], [], some [(0, (0, 0)), (1, (1, 1))], [(0, 1)], []⟩

/-- The document exported from `exGC1`. -/
def exDocC1 : Document :=
  ⟨[.elem (.point ⟨"0", 0, 0, 77, 77, 255, 0, 5, 0⟩),
    .elem (.point ⟨"1", 1, 1, 77, 77, 255, 0, 5, 0⟩),
    .cmd (.segmentCmd ⟨"0", "1", "edge-0-1"⟩),
    .elem (.segment ⟨"edge-0-1", 0, 0, 0, 0, 5⟩)]⟩

/-- Witness for C1 at the concrete two-vertex path. -/
theorem geogebra_roundtrip_witness :
    ∃ H : Graph, importDoc exDocC1 = .ok H ∧
      H.vertexList = exGC1.vertexList ∧
      (∀ v ∈ exGC1.vertexList,
        posLookup H.posMap v = posLookup exGC1.posMap v) ∧
      H.edgeList = exGC1.edgeList :=
  geogebra_roundtrip exGC1 2 exDocC1 rfl (by decide) (by decide) rfl

end GeogebraGraph
